import Mathlib

/-!
# autoinc: segment allocator of increasing identifiers

Shallow embedding of `autoinc.go`.  The allocator (`UID`) keeps a segment
`(min, max)` reserved from the table `t_autoinc` and a buffered channel `ch`;
the goroutine `produce` refills the channel, `Get` takes from it.

* int64 values are integers, every Go `+` / `++` goes through `wrap64`;
* the database is a value (`DB`): the rows of `t_autoinc` and the outcomes of
  the transactions still to come;
* the goroutine is cut at its blocking points (`PC`), and a run is a list of
  events applied to the shared state.
-/

namespace Autoinc

/-! ## Definitions -/

/-! ### int64 -/

/-- Least int64 value. -/
def MIN64 : Int := -9223372036854775808

/-- Greatest int64 value. -/
def MAX64 : Int := 9223372036854775807

/-- Result of an int64 operation whose exact value is `x`: two's complement wrap-around. -/
def wrap64 (x : Int) : Int :=
  (x + 9223372036854775808) % 18446744073709551616 - 9223372036854775808

/-! ### Errors, rows, database -/

/-- Error values: `ErrTimeOut` of the package, `sql.ErrNoRows` from `Scan`, and any
other error of the driver (told apart by a code). -/
inductive Err where
  | ErrTimeOut
  | ErrNoRows
  | driver (code : Nat)
  deriving DecidableEq, Repr

/-- One row of `t_autoinc` without its key: columns `max` and `step`. -/
structure Row where
  max : Int
  step : Int
  deriving DecidableEq, Repr

/-- Outcome the database gives to one transaction of `getFromDB`: no fault, or an
error at `Begin`, at `QueryRow/Scan`, at `Exec`, or at `Commit`. -/
inductive Fault where
  | ok
  | beginErr (e : Err)
  | scanErr (e : Err)
  | execErr (e : Err)
  | commitErr (e : Err)
  deriving DecidableEq, Repr

/-- The database: rows of `t_autoinc` keyed by `business`, and the faults of the
transactions to come, oldest first (none left: no fault). -/
structure DB where
  rows : List (String × Row)
  faults : List Fault
  deriving DecidableEq, Repr

/-- Fault of the next transaction. -/
def nextFault : List Fault → Fault
  | [] => Fault.ok
  | f :: _ => f

/-- Row selected by `SELECT max,step FROM t_autoinc WHERE business = ?`. -/
def findRow : List (String × Row) → String → Option Row
  | [], _ => none
  | (k, r) :: rest, business => if k = business then some r else findRow rest business

/-- Rows after `UPDATE t_autoinc SET max = ? WHERE business = ?`. -/
def setMax : List (String × Row) → String → Int → List (String × Row)
  | [], _, _ => []
  | (k, r) :: rest, business, v =>
    if k = business then (k, { r with max := v }) :: setMax rest business v
    else (k, r) :: setMax rest business v

/-- Rows after another client of the table leaves the record of `business` as `r`. -/
def putRow : List (String × Row) → String → Row → List (String × Row)
  | [], _, _ => []
  | (k, r0) :: rest, business, r =>
    if k = business then (k, r) :: putRow rest business r
    else (k, r0) :: putRow rest business r

/-! ### The allocator -/

/-- The struct `UID` without its connection (the database is passed along):
`business`, the channel `ch` (oldest value first) with its capacity, `min`, `max`. -/
structure UID where
  business : String
  ch : List Int
  cap : Nat
  min : Int
  max : Int
  deriving DecidableEq, Repr

/-- `New`: the struct literal of lines 33-37; `min` and `max` are zero values. -/
def New (business : String) (len : Nat) : UID :=
  { business := business, ch := [], cap := len, min := 0, max := 0 }

/-- What `Get` returns, with the allocator after the call. -/
structure GetResult where
  id : Int
  err : Option Err
  u : UID
  deriving DecidableEq, Repr

/-- `Get` (lines 44-51).  The `select` takes the channel case as soon as a value can
be received: the oldest buffered value, or, the buffer being empty, the value
`arrival` that the sender hands over during the wait.  The timer case is left when
neither exists in the whole window. -/
def Get (u : UID) (arrival : Option Int) : GetResult :=
  match u.ch with
  | x :: rest => { id := x, err := none, u := { u with ch := rest } }
  | [] =>
    match arrival with
    | some x => { id := x, err := none, u := u }
    | none => { id := 0, err := some Err.ErrTimeOut, u := u }

/-- What `getFromDB` returns, with the allocator and the database after the call. -/
structure DBResult where
  err : Option Err
  u : UID
  db : DB
  deriving DecidableEq, Repr

/-- `getFromDB` (lines 88-118): one transaction.  Every early return leaves the
allocator as it was and, by the deferred `Rollback`, the rows too. -/
def getFromDB (u : UID) (db : DB) : DBResult :=
  let db1 : DB := { db with faults := db.faults.tail }
  match nextFault db.faults with
  | Fault.beginErr e => { err := some e, u := u, db := db1 }
  | Fault.scanErr e => { err := some e, u := u, db := db1 }
  | Fault.execErr e =>
    match findRow db.rows u.business with
    | none => { err := some Err.ErrNoRows, u := u, db := db1 }
    | some _ => { err := some e, u := u, db := db1 }
  | Fault.commitErr e =>
    match findRow db.rows u.business with
    | none => { err := some Err.ErrNoRows, u := u, db := db1 }
    | some _ => { err := some e, u := u, db := db1 }
  | Fault.ok =>
    match findRow db.rows u.business with
    | none => { err := some Err.ErrNoRows, u := u, db := db1 }
    | some row =>
      { err := none,
        u := { u with min := row.max, max := wrap64 (row.max + row.step) },
        db := { db1 with rows := setMax db.rows u.business (wrap64 (row.max + row.step)) } }

/-- A diagnostic report of `reLoad`: to `Logger.Error` or, when `Logger` is nil, to
`log.Println`. -/
inductive Report where
  | logger (e : Err)
  | stdlog (e : Err)
  deriving DecidableEq, Repr

/-- Lines 77-81 of `reLoad`. -/
def report (loggerSet : Bool) (e : Err) : Report :=
  if loggerSet then Report.logger e else Report.stdlog e

/-- What `reLoad` returns, with the state after it, the reports it issued (oldest
first) and the number of calls of `getFromDB` it made. -/
structure ReloadResult where
  err : Option Err
  u : UID
  db : DB
  reports : List Report
  attempts : Nat
  deriving DecidableEq, Repr

/-- `reLoad` (lines 68-85).  The loop has no bound in the source; here it runs at most
`fuel` attempts, and `none` means it is still retrying. -/
def reLoad (loggerSet : Bool) : Nat → UID → DB → Option ReloadResult
  | 0, _, _ => none
  | fuel + 1, u, db =>
    let r := getFromDB u db
    match r.err with
    | none => some { err := none, u := r.u, db := r.db, reports := [], attempts := 1 }
    | some e =>
      match reLoad loggerSet fuel r.u r.db with
      | none => none
      | some q =>
        some { q with reports := report loggerSet e :: q.reports, attempts := q.attempts + 1 }

/-- Lines 58-62 of `produce`: reload when the segment is used up, then `u.min++`. -/
def produceNext (loggerSet : Bool) (fuel : Nat) (u : UID) (db : DB) : Option ReloadResult :=
  if u.min ≥ u.max then
    match reLoad loggerSet fuel u db with
    | none => none
    | some r => some { r with u := { r.u with min := wrap64 (r.u.min + 1) } }
  else
    some { err := none, u := { u with min := wrap64 (u.min + 1) }, db := db,
           reports := [], attempts := 0 }

/-- Line 63 of `produce`, once the channel has room: `u.ch <- u.min`. -/
def produceSend (u : UID) : UID :=
  { u with ch := u.ch ++ [u.min] }

/-- The refill loop of `produce` (lines 57-64) run for a number of iterations with a
receiver that always takes the value: the values sent are collected in order. -/
def refill (loggerSet : Bool) (fuel : Nat) : Nat → UID → DB → List Int → Option (UID × DB × List Int)
  | 0, u, db, out => some (u, db, out)
  | n + 1, u, db, out =>
    match produceNext loggerSet fuel u db with
    | none => none
    | some r => refill loggerSet fuel n r.u r.db (out ++ [r.u.min])

/-- `produce` (lines 54-65) cut after a number of iterations of its loop. -/
def produce (loggerSet : Bool) (fuel : Nat) (n : Nat) (u : UID) (db : DB) :
    Option (UID × DB × List Int) :=
  match reLoad loggerSet fuel u db with
  | none => none
  | some r => refill loggerSet fuel n r.u r.db []

/-! ### Runs of one allocator -/

/-- Where the goroutine `produce` stands: before the first `reLoad` (line 55), at the
head of the loop (line 58), or at the send (line 63) with `u.min` already raised. -/
inductive PC where
  | start
  | loop
  | send
  deriving DecidableEq, Repr

/-- One allocator together with its goroutine, the setting of the package variable
`Logger`, and the history of the run: values sent on `ch`, values returned by
successful `Get` calls, reports issued. -/
structure Proc where
  u : UID
  pc : PC
  loggerSet : Bool
  sent : List Int
  got : List Int
  reports : List Report
  deriving DecidableEq, Repr

/-- The allocator returned by `New`, its goroutine just started. -/
def Proc.init (business : String) (len : Nat) (loggerSet : Bool) : Proc :=
  { u := New business len, pc := PC.start, loggerSet := loggerSet,
    sent := [], got := [], reports := [] }

/-- Attempts that exhaust the faults of the database; one more succeeds or finds no row. -/
def fuelFor (db : DB) : Nat := db.faults.length + 1

/-- The goroutine runs up to its next blocking point.  A `reLoad` that cannot succeed
(no row for the key) and a send on a full channel leave everything as it is. -/
def produceStep (a : Proc) (db : DB) : Proc × DB :=
  match a.pc with
  | PC.start =>
    match reLoad a.loggerSet (fuelFor db) a.u db with
    | none => (a, db)
    | some r => ({ a with u := r.u, pc := PC.loop, reports := a.reports ++ r.reports }, r.db)
  | PC.loop =>
    match produceNext a.loggerSet (fuelFor db) a.u db with
    | none => (a, db)
    | some r => ({ a with u := r.u, pc := PC.send, reports := a.reports ++ r.reports }, r.db)
  | PC.send =>
    if a.u.ch.length < a.u.cap then
      ({ a with u := produceSend a.u, pc := PC.loop, sent := a.sent ++ [a.u.min] }, db)
    else (a, db)

/-- A call of `Get` completes.  With the buffer empty and the goroutine waiting at the
send, the value goes straight to the caller and the send completes.  A call that times
out changes nothing. -/
def getStep (a : Proc) : Proc :=
  let r := Get a.u (if a.pc = PC.send then some a.u.min else none)
  match r.err with
  | some _ => a
  | none =>
    if a.u.ch = [] then
      { a with u := r.u, pc := PC.loop, sent := a.sent ++ [a.u.min], got := a.got ++ [r.id] }
    else { a with u := r.u, got := a.got ++ [r.id] }

/-- Events of a run of one allocator: its goroutine moves, a `Get` completes, or
another client of the table leaves the record of the key as `r`. -/
inductive Ev where
  | produce
  | get
  | store (r : Row)
  deriving DecidableEq, Repr

/-- One event on the state of an allocator and the database. -/
def step (w : Proc × DB) : Ev → Proc × DB
  | Ev.produce => produceStep w.1 w.2
  | Ev.get => (getStep w.1, w.2)
  | Ev.store r => (w.1, { w.2 with rows := putRow w.2.rows w.1.u.business r })

/-- A run: events in order. -/
def run (w : Proc × DB) (evs : List Ev) : Proc × DB :=
  evs.foldl step w

/-! ### Auxiliary notions for the proofs -/

/-- Error carried by a fault. -/
def faultErr : Fault → Option Err
  | Fault.ok => none
  | Fault.beginErr e => some e
  | Fault.scanErr e => some e
  | Fault.execErr e => some e
  | Fault.commitErr e => some e

/-- What one event does to an allocator and to the record of its key, as far as the
segment, the place of the goroutine and the values sent are concerned; a reservation
is made only by an event of the goroutine (`byProduce`). -/
inductive Move (byProduce : Bool) (a : Proc) (row : Option Row) (b : Proc) (row2 : Option Row) :
    Prop where
  | stay : b.pc = a.pc → b.u.min = a.u.min → b.u.max = a.u.max → b.sent = a.sent →
      row2 = row → Move byProduce a row b row2
  | first (r : Row) : byProduce = true → a.pc = PC.start → row = some r → b.pc = PC.loop →
      b.u.min = r.max → b.u.max = wrap64 (r.max + r.step) → b.sent = a.sent →
      row2 = some { max := wrap64 (r.max + r.step), step := r.step } → Move byProduce a row b row2
  | again (r : Row) : byProduce = true → a.pc = PC.loop → a.u.max ≤ a.u.min → row = some r → b.pc = PC.send →
      b.u.min = wrap64 (r.max + 1) → b.u.max = wrap64 (r.max + r.step) → b.sent = a.sent →
      row2 = some { max := wrap64 (r.max + r.step), step := r.step } → Move byProduce a row b row2
  | incr : a.pc = PC.loop → a.u.min < a.u.max → b.pc = PC.send →
      b.u.min = wrap64 (a.u.min + 1) → b.u.max = a.u.max → b.sent = a.sent →
      row2 = row → Move byProduce a row b row2
  | send : a.pc = PC.send → b.pc = PC.loop → b.u.min = a.u.min → b.u.max = a.u.max →
      b.sent = a.sent ++ [a.u.min] → row2 = row → Move byProduce a row b row2

/-- The next event of the goroutine makes a reservation: it stands before the first
`reLoad`, or at the head of the loop with the segment used up. -/
def reserves (a : Proc) : Bool :=
  decide (a.pc = PC.start) || (decide (a.pc = PC.loop) && decide (a.u.max ≤ a.u.min))

/-- A condition on the state and the event holds at every event of the run. -/
def Holds (H : Proc × DB → Ev → Prop) : Proc × DB → List Ev → Prop
  | _, [] => True
  | w, e :: es => H w e ∧ Holds H (step w e) es

/-- Every reservation of the run reads a record that satisfies `P`. -/
def Reads (P : Row → Prop) (w : Proc × DB) (e : Ev) : Prop :=
  e = Ev.produce → reserves w.1 = true →
    ∀ row ∈ findRow w.2.rows w.1.u.business, P row

/-- Other clients never lower the high-water mark of the record. -/
def Advances (w : Proc × DB) (e : Ev) : Prop :=
  match e with
  | Ev.store r => ∀ row ∈ findRow w.2.rows w.1.u.business, row.max ≤ r.max
  | _ => True

/-- The record read has a positive step. -/
def StepPos (row : Row) : Prop := 0 < row.step

/-- The record read has a positive step and `max + step` fits in an int64. -/
def Fits (row : Row) : Prop :=
  MIN64 ≤ row.max ∧ 0 < row.step ∧ row.max + row.step ≤ MAX64

instance (row : Row) : Decidable (StepPos row) := by
  unfold StepPos; infer_instance

instance (row : Row) : Decidable (Fits row) := by
  unfold Fits; infer_instance

instance (P : Row → Prop) [DecidablePred P] (w : Proc × DB) (e : Ev) :
    Decidable (Reads P w e) := by
  unfold Reads; infer_instance

instance (w : Proc × DB) (e : Ev) : Decidable (Advances w e) := by
  unfold Advances
  cases e <;> infer_instance

/-- Deciding `Holds` event by event. -/
def Holds.decide (H : Proc × DB → Ev → Prop) [∀ w e, Decidable (H w e)] :
    ∀ (w : Proc × DB) (evs : List Ev), Decidable (Holds H w evs)
  | _, [] => isTrue trivial
  | w, e :: es =>
    match (inferInstance : Decidable (H w e)), Holds.decide H (step w e) es with
    | isTrue h1, isTrue h2 => isTrue ⟨h1, h2⟩
    | isFalse h1, _ => isFalse (fun h => h1 h.1)
    | _, isFalse h2 => isFalse (fun h => h2 h.2)

instance (H : Proc × DB → Ev → Prop) [∀ w e, Decidable (H w e)] (w : Proc × DB)
    (evs : List Ev) : Decidable (Holds H w evs) := Holds.decide H w evs

/-- The segment is well formed: `min ≤ max`, both int64. -/
def SegOK (a : Proc) : Prop :=
  a.u.min ≤ a.u.max ∧ a.u.max ≤ MAX64 ∧ MIN64 ≤ a.u.min

/-- Bound on the values already sent: `min`, less one while `min` waits at the send. -/
def below (a : Proc) : Int :=
  if a.pc = PC.send then a.u.min - 1 else a.u.min

/-- The values sent increase, stay at or below `below`, and the segment ends at or
below the high-water mark of the record. -/
def MonoInv (a : Proc) (row : Option Row) : Prop :=
  SegOK a ∧ a.sent.Pairwise (· < ·) ∧ (a.pc = PC.start → a.sent = []) ∧
  (a.pc ≠ PC.start → (∀ r, row = some r → a.u.max ≤ r.max) ∧ ∀ x ∈ a.sent, x ≤ below a)

/-- The list counts up from `M + 1`. -/
def Counted (M : Int) (l : List Int) : Prop :=
  l = (List.range l.length).map (fun t : Nat => M + 1 + t)

/-- State of an allocator that started from the record `(M, s)` alone on its key and has
met no overflow: the values sent count up from `M + 1`, `min` follows them, and the
segment ends at the high-water mark `M + i * s` of the record. -/
def Clean (M s : Int) (a : Proc) (row : Option Row) : Prop :=
  Counted M a.sent ∧
  (a.pc = PC.start → a.sent = [] ∧ row = some { max := M, step := s }) ∧
  (a.pc ≠ PC.start → ∃ i : Nat, row = some { max := M + i * s, step := s } ∧
      a.u.max = M + i * s ∧ M + i * s ≤ MAX64 ∧ a.u.min ≤ a.u.max ∧
      a.u.min = (if a.pc = PC.send then M + a.sent.length + 1 else M + a.sent.length))

/-- Until `k` values are sent the state is clean; from then on the `k`-th is `M + k`. -/
def Kth (M s : Int) (k : Nat) (a : Proc) (row : Option Row) : Prop :=
  (a.sent.length < k → Clean M s a row) ∧ (k ≤ a.sent.length → a.sent[k - 1]? = some (M + k))

/-- Schedule in which the goroutine prepares a value and a `Get` takes it, `n` times. -/
def serve : Nat → List Ev
  | 0 => []
  | n + 1 => Ev.produce :: Ev.get :: serve n

/-- The goroutine at the head of its loop, the buffer empty, `n` values returned so far,
and a record for the key. -/
def Ready (n : Nat) (w : Proc × DB) : Prop :=
  w.1.pc = PC.loop ∧ w.1.u.ch = [] ∧ w.1.got.length = n ∧
  ∃ row, findRow w.2.rows w.1.u.business = some row

/-! ### Runs of two allocators -/

/-- Two allocators of the same key, each with its goroutine, on one database. -/
structure World2 where
  a : Proc
  b : Proc
  db : DB
  deriving DecidableEq, Repr

/-- Events of a run of two allocators: for each, its goroutine moves or a `Get` of it
completes.  A reservation is one whole `produce` event, so reservations never overlap. -/
inductive Ev2 where
  | produceA
  | getA
  | produceB
  | getB
  deriving DecidableEq, Repr

/-- One event on the state of two allocators. -/
def step2 (w : World2) : Ev2 → World2
  | Ev2.produceA => { w with a := (produceStep w.a w.db).1, db := (produceStep w.a w.db).2 }
  | Ev2.getA => { w with a := getStep w.a }
  | Ev2.produceB => { w with b := (produceStep w.b w.db).1, db := (produceStep w.b w.db).2 }
  | Ev2.getB => { w with b := getStep w.b }

/-- A run of two allocators: events in order. -/
def run2 (w : World2) (evs : List Ev2) : World2 :=
  evs.foldl step2 w

/-- Two allocators just returned by `New` for the same key. -/
def World2.init (business : String) (lenA lenB : Nat) (loggerSet : Bool) (db : DB) : World2 :=
  { a := Proc.init business lenA loggerSet, b := Proc.init business lenB loggerSet, db := db }

/-- A condition on the state and the event holds at every event of the run. -/
def Holds2 (H : World2 → Ev2 → Prop) : World2 → List Ev2 → Prop
  | _, [] => True
  | w, e :: es => H w e ∧ Holds2 H (step2 w e) es

/-- Every reservation of either allocator reads a record that satisfies `P`. -/
def Reads2 (P : Row → Prop) (w : World2) (e : Ev2) : Prop :=
  match e with
  | Ev2.produceA => reserves w.a = true → ∀ row ∈ findRow w.db.rows w.a.u.business, P row
  | Ev2.produceB => reserves w.b = true → ∀ row ∈ findRow w.db.rows w.b.u.business, P row
  | _ => True

instance (P : Row → Prop) [DecidablePred P] (w : World2) (e : Ev2) :
    Decidable (Reads2 P w e) := by
  unfold Reads2
  cases e <;> infer_instance

/-- Deciding `Holds2` event by event. -/
def Holds2.decide (H : World2 → Ev2 → Prop) [∀ w e, Decidable (H w e)] :
    ∀ (w : World2) (evs : List Ev2), Decidable (Holds2 H w evs)
  | _, [] => isTrue trivial
  | w, e :: es =>
    match (inferInstance : Decidable (H w e)), Holds2.decide H (step2 w e) es with
    | isTrue h1, isTrue h2 => isTrue ⟨h1, h2⟩
    | isFalse h1, _ => isFalse (fun h => h1 h.1)
    | _, isFalse h2 => isFalse (fun h => h2 h.2)

instance (H : World2 → Ev2 → Prop) [∀ w e, Decidable (H w e)] (w : World2)
    (evs : List Ev2) : Decidable (Holds2 H w evs) := Holds2.decide H w evs

/-- What a `Move` under `MonoInv` and `Fits` does to the bound `below`, the end of the
segment, the values sent and the record: nothing, a reservation, or one value sent. -/
def Effect (a : Proc) (row : Option Row) (b : Proc) (row2 : Option Row) : Prop :=
  ((b.pc = PC.start ↔ a.pc = PC.start) ∧ below b = below a ∧ b.u.max = a.u.max ∧
    b.sent = a.sent ∧ row2 = row) ∨
  (∃ r, row = some r ∧ Fits r ∧ b.pc ≠ PC.start ∧ below b = r.max ∧
    b.u.max = r.max + r.step ∧ b.sent = a.sent ∧
    row2 = some { max := r.max + r.step, step := r.step }) ∨
  (a.pc ≠ PC.start ∧ b.pc ≠ PC.start ∧ below b = below a + 1 ∧ below b ≤ a.u.max ∧
    b.u.max = a.u.max ∧ b.sent = a.sent ++ [below a + 1] ∧ row2 = row)

/-- The values sent by `b` lie outside what is left of the segment of `a`. -/
def Cross (a b : Proc) : Prop :=
  a.pc ≠ PC.start → ∀ y ∈ b.sent, y ≤ below a ∨ a.u.max < y

/-- What is left of the two segments does not overlap. -/
def Apart (a b : Proc) : Prop :=
  a.pc ≠ PC.start → b.pc ≠ PC.start → a.u.max ≤ below b ∨ b.u.max ≤ below a

/-- Invariant of two allocators on one record. -/
def Inv2 (a b : Proc) (row : Option Row) : Prop :=
  MonoInv a row ∧ MonoInv b row ∧ (∀ x ∈ a.sent, x ∉ b.sent) ∧ Cross a b ∧ Cross b a ∧
  Apart a b

/-- Invariant of a run of two allocators: same key, and `Inv2` on the record of it. -/
def Inv2W (w : World2) : Prop :=
  w.a.u.business = w.b.u.business ∧ Inv2 w.a w.b (findRow w.db.rows w.a.u.business)

/-! ## Theorems -/

/-! ### Basic facts -/

theorem wrap64_id (x : Int) (h1 : MIN64 ≤ x) (h2 : x ≤ MAX64) : wrap64 x = x := by
  unfold wrap64; unfold MIN64 at h1; unfold MAX64 at h2; omega

theorem findRow_setMax (rows : List (String × Row)) (b : String) (v : Int) :
    findRow (setMax rows b v) b = (findRow rows b).map (fun r => { r with max := v }) := by
  induction rows with
  | nil => rfl
  | cons kr rest ih =>
    obtain ⟨k, r⟩ := kr
    by_cases h : k = b
    · simp [setMax, findRow, h]
    · simp [setMax, findRow, h, ih]

theorem findRow_putRow (rows : List (String × Row)) (b : String) (r : Row) :
    findRow (putRow rows b r) b = (findRow rows b).map (fun _ => r) := by
  induction rows with
  | nil => rfl
  | cons kr rest ih =>
    obtain ⟨k, r0⟩ := kr
    by_cases h : k = b
    · simp [putRow, findRow, h]
    · simp [putRow, findRow, h, ih]

theorem getFromDB_ok (u : UID) (db : DB) (row : Row)
    (hrow : findRow db.rows u.business = some row) (hf : nextFault db.faults = Fault.ok) :
    getFromDB u db =
      { err := none,
        u := { u with min := row.max, max := wrap64 (row.max + row.step) },
        db := { rows := setMax db.rows u.business (wrap64 (row.max + row.step)),
                faults := db.faults.tail } } := by
  simp [getFromDB, hf, hrow]

theorem getFromDB_fault (u : UID) (db : DB) (row : Row)
    (hrow : findRow db.rows u.business = some row) (hf : nextFault db.faults ≠ Fault.ok) :
    getFromDB u db =
      { err := faultErr (nextFault db.faults), u := u,
        db := { rows := db.rows, faults := db.faults.tail } } := by
  unfold getFromDB
  cases h : nextFault db.faults <;> simp_all [faultErr]

theorem getFromDB_norow (u : UID) (db : DB)
    (hrow : findRow db.rows u.business = none) :
    ∃ e, getFromDB u db =
      { err := some e, u := u, db := { rows := db.rows, faults := db.faults.tail } } := by
  unfold getFromDB
  cases h : nextFault db.faults <;> simp_all

theorem faultErr_eq_none (f : Fault) : faultErr f = none ↔ f = Fault.ok := by
  cases f <;> simp [faultErr]

/-! ### reLoad -/

/-- A reload whose first transactions meet the faults `fs` (errors `errs`) and whose
next one meets none: it returns at that transaction. -/
theorem reLoad_script (loggerSet : Bool) (u : UID) (row : Row) (rows : List (String × Row))
    (hrow : findRow rows u.business = some row) (rest : List Fault)
    (hrest : nextFault rest = Fault.ok) :
    ∀ (fs : List Fault) (errs : List Err) (fuel : Nat),
      fs.map faultErr = errs.map some → fs.length < fuel →
      reLoad loggerSet fuel u { rows := rows, faults := fs ++ rest } =
        some { err := none,
               u := { u with min := row.max, max := wrap64 (row.max + row.step) },
               db := { rows := setMax rows u.business (wrap64 (row.max + row.step)),
                       faults := rest.tail },
               reports := errs.map (report loggerSet),
               attempts := fs.length + 1 } := by
  intro fs
  induction fs with
  | nil =>
    intro errs fuel he hlen
    cases fuel with
    | zero => simp at hlen
    | succ fuel =>
      cases errs with
      | cons e es => simp at he
      | nil =>
        have h := getFromDB_ok u { rows := rows, faults := rest } row hrow hrest
        simp [reLoad, h]
  | cons f fs ih =>
    intro errs fuel he hlen
    cases fuel with
    | zero => simp at hlen
    | succ fuel =>
      cases errs with
      | nil => simp at he
      | cons e es =>
        simp only [List.map_cons, List.cons.injEq] at he
        have hne : nextFault (f :: (fs ++ rest)) ≠ Fault.ok := by
          intro h0
          have : f = Fault.ok := h0
          rw [this] at he
          simp [faultErr] at he
        have h := getFromDB_fault u { rows := rows, faults := f :: (fs ++ rest) } row hrow hne
        have hf : nextFault (f :: (fs ++ rest)) = f := rfl
        have hlen2 : fs.length < fuel := by simpa using hlen
        have ih2 := ih es fuel he.2 hlen2
        simp only [List.cons_append, reLoad, h, hf, he.1, List.tail_cons, ih2]
        simp

/-- Too little fuel for the faults ahead: the reload has not returned. -/
theorem reLoad_short (loggerSet : Bool) (u : UID) (row : Row) (rows : List (String × Row))
    (hrow : findRow rows u.business = some row) (rest : List Fault) :
    ∀ (fs : List Fault) (fuel : Nat),
      (∀ f ∈ fs, f ≠ Fault.ok) → fuel ≤ fs.length →
      reLoad loggerSet fuel u { rows := rows, faults := fs ++ rest } = none := by
  intro fs
  induction fs with
  | nil =>
    intro fuel _ hlen
    have : fuel = 0 := by simpa using hlen
    subst this; rfl
  | cons f fs ih =>
    intro fuel hbad hlen
    cases fuel with
    | zero => rfl
    | succ fuel =>
      have hne : nextFault (f :: (fs ++ rest)) ≠ Fault.ok := hbad f (by simp)
      have h := getFromDB_fault u { rows := rows, faults := f :: (fs ++ rest) } row hrow hne
      have hf : nextFault (f :: (fs ++ rest)) = f := rfl
      have hfe : ∃ e, faultErr f = some e := by
        cases hq : faultErr f with
        | none => exact absurd ((faultErr_eq_none f).1 hq) hne
        | some e => exact ⟨e, rfl⟩
      obtain ⟨e, he⟩ := hfe
      have ih2 := ih fuel (fun g hg => hbad g (by simp [hg])) (by simpa using hlen)
      simp only [List.cons_append, reLoad, h, hf, he, List.tail_cons, ih2]

/-- Whatever `reLoad` returns, the error it returns is nil. -/
theorem reLoad_err (loggerSet : Bool) : ∀ (fuel : Nat) (u : UID) (db : DB) (r : ReloadResult),
    reLoad loggerSet fuel u db = some r → r.err = none := by
  intro fuel
  induction fuel with
  | zero => intro u db r h; simp [reLoad] at h
  | succ fuel ih =>
    intro u db r h
    simp only [reLoad] at h
    split at h
    · simp at h; rw [← h]
    · split at h
      · simp at h
      · rename_i q hq
        simp at h
        rw [← h]
        exact ih _ _ q hq

/-- No row for the key: every transaction fails and `reLoad` never returns. -/
theorem reLoad_norow (loggerSet : Bool) : ∀ (fuel : Nat) (u : UID) (db : DB),
    findRow db.rows u.business = none → reLoad loggerSet fuel u db = none := by
  intro fuel
  induction fuel with
  | zero => intro u db _; rfl
  | succ fuel ih =>
    intro u db hrow
    obtain ⟨e, he⟩ := getFromDB_norow u db hrow
    simp only [reLoad, he]
    rw [ih u { rows := db.rows, faults := db.faults.tail } hrow]

theorem faults_split : ∀ (faults : List Fault),
    ∃ (fs rest : List Fault) (errs : List Err),
      faults = fs ++ rest ∧ fs.map faultErr = errs.map some ∧ nextFault rest = Fault.ok ∧
      fs.length ≤ faults.length := by
  intro faults
  induction faults with
  | nil => exact ⟨[], [], [], rfl, rfl, rfl, le_refl _⟩
  | cons f fs ih =>
    cases hf : faultErr f with
    | none =>
      have : f = Fault.ok := (faultErr_eq_none f).1 hf
      subst this
      exact ⟨[], Fault.ok :: fs, [], rfl, rfl, rfl, by simp⟩
    | some e =>
      obtain ⟨gs, rest, errs, h1, h2, h3, h4⟩ := ih
      refine ⟨f :: gs, rest, e :: errs, ?_, ?_, h3, ?_⟩
      · simp [h1]
      · simp [hf, h2]
      · simpa using h4

/-- With a row for the key, `reLoad` returns once the faults ahead are used up: the
segment is the one read by the transaction that commits. -/
theorem reLoad_total (loggerSet : Bool) (u : UID) (db : DB) (row : Row)
    (hrow : findRow db.rows u.business = some row) (fuel : Nat) (hfuel : db.faults.length < fuel) :
    ∃ r, reLoad loggerSet fuel u db = some r ∧ r.err = none ∧
      r.u = { u with min := row.max, max := wrap64 (row.max + row.step) } ∧
      r.db.rows = setMax db.rows u.business (wrap64 (row.max + row.step)) ∧
      1 ≤ r.attempts := by
  obtain ⟨fs, rest, errs, h1, h2, h3, h4⟩ := faults_split db.faults
  have h := reLoad_script loggerSet u row db.rows hrow rest h3 fs errs fuel h2 (by omega)
  rw [← h1] at h
  exact ⟨_, h, rfl, rfl, rfl, by simp⟩

/-! ### Events as moves -/

theorem produceStep_business (a : Proc) (db : DB) :
    (produceStep a db).1.u.business = a.u.business := by
  unfold produceStep
  cases hpc : a.pc with
  | start =>
    simp only
    cases hrow : findRow db.rows a.u.business with
    | none => rw [reLoad_norow _ _ _ _ hrow]
    | some row =>
      obtain ⟨r, h1, _, h3, _, _⟩ := reLoad_total a.loggerSet a.u db row hrow (fuelFor db) (by simp [fuelFor])
      rw [h1]; simp [h3]
  | loop =>
    simp only [produceNext]
    by_cases hge : a.u.min ≥ a.u.max
    · simp only [hge, if_true]
      cases hrow : findRow db.rows a.u.business with
      | none => rw [reLoad_norow _ _ _ _ hrow]
      | some row =>
        obtain ⟨r, h1, _, h3, _, _⟩ := reLoad_total a.loggerSet a.u db row hrow (fuelFor db) (by simp [fuelFor])
        rw [h1]; simp [h3]
    · simp only [hge, if_false]
  | send =>
    simp only
    split <;> simp [produceSend]

theorem produceStep_move (a : Proc) (db : DB) :
    Move true a (findRow db.rows a.u.business) (produceStep a db).1
      (findRow (produceStep a db).2.rows a.u.business) := by
  unfold produceStep
  cases hpc : a.pc with
  | start =>
    simp only
    cases hrow : findRow db.rows a.u.business with
    | none =>
      rw [reLoad_norow _ _ _ _ hrow]
      exact Move.stay rfl rfl rfl rfl hrow
    | some row =>
      obtain ⟨r, h1, _, h3, h4, _⟩ := reLoad_total a.loggerSet a.u db row hrow (fuelFor db) (by simp [fuelFor])
      rw [h1]
      refine Move.first row rfl hpc rfl rfl ?_ ?_ rfl ?_
      · simp [h3]
      · simp [h3]
      · simp [h4, findRow_setMax, hrow]
  | loop =>
    simp only [produceNext]
    by_cases hge : a.u.min ≥ a.u.max
    · simp only [hge, if_true]
      cases hrow : findRow db.rows a.u.business with
      | none =>
        rw [reLoad_norow _ _ _ _ hrow]
        exact Move.stay rfl rfl rfl rfl hrow
      | some row =>
        obtain ⟨r, h1, _, h3, h4, _⟩ := reLoad_total a.loggerSet a.u db row hrow (fuelFor db) (by simp [fuelFor])
        rw [h1]
        refine Move.again row rfl hpc hge rfl rfl ?_ ?_ rfl ?_
        · simp [h3]
        · simp [h3]
        · simp [h4, findRow_setMax, hrow]
    · simp only [hge, if_false]
      exact Move.incr hpc (by omega) rfl rfl rfl rfl rfl
  | send =>
    simp only
    split
    · exact Move.send hpc rfl rfl rfl rfl rfl
    · exact Move.stay rfl rfl rfl rfl rfl

theorem getStep_business (a : Proc) : (getStep a).u.business = a.u.business := by
  unfold getStep Get
  cases hch : a.u.ch with
  | nil =>
    by_cases hpc : a.pc = PC.send
    · simp [hpc]
    · simp [hpc]
  | cons x rest => simp

theorem getStep_move (a : Proc) (row : Option Row) : Move false a row (getStep a) row := by
  unfold getStep Get
  cases hch : a.u.ch with
  | nil =>
    by_cases hpc : a.pc = PC.send
    · simp only [hpc, if_true]
      exact Move.send hpc rfl rfl rfl rfl rfl
    · simp only [hpc, if_false]
      exact Move.stay rfl rfl rfl rfl rfl
  | cons x rest =>
    simp only
    exact Move.stay rfl rfl rfl rfl rfl

theorem step_business (w : Proc × DB) (e : Ev) : (step w e).1.u.business = w.1.u.business := by
  cases e with
  | produce => exact produceStep_business w.1 w.2
  | get => exact getStep_business w.1
  | store r => rfl

/-- Every event of a run is a `Move`, except that a `store` replaces the record. -/
theorem step_move (w : Proc × DB) (e : Ev) :
    (∃ p, (p = true → e = Ev.produce) ∧
      Move p w.1 (findRow w.2.rows w.1.u.business) (step w e).1
        (findRow (step w e).2.rows w.1.u.business)) ∨
    (∃ r, e = Ev.store r ∧ (step w e).1 = w.1 ∧
      findRow (step w e).2.rows w.1.u.business =
        (findRow w.2.rows w.1.u.business).map (fun _ => r)) := by
  cases e with
  | produce => exact Or.inl ⟨true, fun _ => rfl, produceStep_move w.1 w.2⟩
  | get => exact Or.inl ⟨false, fun h => by simp at h, getStep_move w.1 _⟩
  | store r => exact Or.inr ⟨r, rfl, rfl, findRow_putRow _ _ _⟩

/-! ### FIFO order of the channel -/

/-- A property kept by every event holds after every run. -/
theorem run_induction (I : Proc × DB → Prop) (hstep : ∀ w e, I w → I (step w e)) :
    ∀ (evs : List Ev) (w : Proc × DB), I w → I (run w evs) := by
  intro evs
  induction evs with
  | nil => intro w h; exact h
  | cons e es ih => intro w h; exact ih (step w e) (hstep w e h)

theorem run_cons (w : Proc × DB) (e : Ev) (es : List Ev) :
    run w (e :: es) = run (step w e) es := rfl

theorem produceStep_fifo (a : Proc) (db : DB) (h : a.got ++ a.u.ch = a.sent) :
    (produceStep a db).1.got ++ (produceStep a db).1.u.ch = (produceStep a db).1.sent := by
  unfold produceStep
  cases hpc : a.pc with
  | start =>
    simp only
    cases hrow : findRow db.rows a.u.business with
    | none => rw [reLoad_norow _ _ _ _ hrow]; exact h
    | some row =>
      obtain ⟨r, h1, _, h3, _, _⟩ := reLoad_total a.loggerSet a.u db row hrow (fuelFor db) (by simp [fuelFor])
      rw [h1]; simp [h3, h]
  | loop =>
    simp only [produceNext]
    by_cases hge : a.u.min ≥ a.u.max
    · simp only [hge, if_true]
      cases hrow : findRow db.rows a.u.business with
      | none => rw [reLoad_norow _ _ _ _ hrow]; exact h
      | some row =>
        obtain ⟨r, h1, _, h3, _, _⟩ := reLoad_total a.loggerSet a.u db row hrow (fuelFor db) (by simp [fuelFor])
        rw [h1]; simp [h3, h]
    · simp only [hge, if_false]; exact h
  | send =>
    simp only
    split
    · simp only [produceSend]
      rw [← List.append_assoc, h]
    · exact h

theorem getStep_fifo (a : Proc) (h : a.got ++ a.u.ch = a.sent) :
    (getStep a).got ++ (getStep a).u.ch = (getStep a).sent := by
  unfold getStep Get
  cases hch : a.u.ch with
  | nil =>
    rw [hch] at h
    by_cases hpc : a.pc = PC.send
    · simp [hpc, hch]
      simpa using h
    · simp [hpc, hch]
      simpa using h
  | cons x rest =>
    rw [hch] at h
    simp
    simpa using h

theorem step_fifo (w : Proc × DB) (e : Ev) (h : w.1.got ++ w.1.u.ch = w.1.sent) :
    (step w e).1.got ++ (step w e).1.u.ch = (step w e).1.sent := by
  cases e with
  | produce => exact produceStep_fifo w.1 w.2 h
  | get => exact getStep_fifo w.1 h
  | store r => exact h

/-! ### Segment order (C8) -/

/-- A property kept by every event at which `H` holds is kept by every run along which
`H` holds. -/
theorem run_induction_of (I : Proc × DB → Prop) (H : Proc × DB → Ev → Prop)
    (hstep : ∀ w e, I w → H w e → I (step w e)) :
    ∀ (evs : List Ev) (w : Proc × DB), I w → Holds H w evs → I (run w evs) := by
  intro evs
  induction evs with
  | nil => intro w h _; exact h
  | cons e es ih => intro w h hh; exact ih (step w e) (hstep w e h hh.1) hh.2

theorem move_segOK (p : Bool) (a b : Proc) (row row2 : Option Row)
    (hm : Move p a row b row2) (h : SegOK a)
    (hfit : p = true → reserves a = true → ∀ r, row = some r → Fits r) : SegOK b := by
  obtain ⟨h1, h2, h3⟩ := h
  cases hm with
  | stay e1 e2 e3 e4 e5 => exact ⟨by omega, by omega, by omega⟩
  | first r hp hpc hr e1 e2 e3 e4 e5 =>
    obtain ⟨f1, f2, f3⟩ := hfit hp (by simp [reserves, hpc]) r hr
    have hw : wrap64 (r.max + r.step) = r.max + r.step := wrap64_id _ (by omega) f3
    unfold SegOK
    rw [e2, e3, hw]
    exact ⟨by omega, f3, f1⟩
  | again r hp hpc hge hr e1 e2 e3 e4 e5 =>
    obtain ⟨f1, f2, f3⟩ := hfit hp (by simp [reserves, hpc, hge]) r hr
    have hw : wrap64 (r.max + r.step) = r.max + r.step := wrap64_id _ (by omega) f3
    have hw1 : wrap64 (r.max + 1) = r.max + 1 := wrap64_id _ (by omega) (by omega)
    unfold SegOK
    rw [e2, e3, hw, hw1]
    exact ⟨by omega, f3, by omega⟩
  | incr hpc hlt e1 e2 e3 e4 e5 =>
    have hw1 : wrap64 (a.u.min + 1) = a.u.min + 1 := wrap64_id _ (by omega) (by omega)
    unfold SegOK
    rw [e2, e3, hw1]
    exact ⟨by omega, h2, by omega⟩
  | send hpc e1 e2 e3 e4 e5 => exact ⟨by omega, by omega, by omega⟩

theorem step_segOK (w : Proc × DB) (e : Ev) (h : SegOK w.1) (hr : Reads Fits w e) :
    SegOK (step w e).1 := by
  rcases step_move w e with ⟨p, hp, hm⟩ | ⟨r, _, h2, _⟩
  · exact move_segOK p _ _ _ _ hm h (fun hp1 hres r hrow => hr (hp hp1) hres r hrow)
  · rw [h2]; exact h

/-- C8, amended: in every state reached from `New` by a run whose reservations all read
a record with `step > 0` and `max + step` within int64, the segment has `min ≤ max`. -/
theorem segment_ordered (business : String) (len : Nat) (loggerSet : Bool) (db : DB)
    (evs : List Ev) (hreads : Holds (Reads Fits) (Proc.init business len loggerSet, db) evs) :
    (run (Proc.init business len loggerSet, db) evs).1.u.min ≤
      (run (Proc.init business len loggerSet, db) evs).1.u.max := by
  have h0 : SegOK (Proc.init business len loggerSet, db).1 := by
    simp [SegOK, Proc.init, New, MIN64, MAX64]
  exact (run_induction_of (fun w => SegOK w.1) (Reads Fits) step_segOK evs _ h0 hreads).1

theorem segment_ordered_witness :
    Holds (Reads Fits) (Proc.init "b1" 1 false, { rows := [("b1", { max := 0, step := 2 })], faults := [] })
      [Ev.produce, Ev.produce, Ev.produce, Ev.get, Ev.produce, Ev.produce, Ev.produce, Ev.produce] ∧
    (run (Proc.init "b1" 1 false, { rows := [("b1", { max := 0, step := 2 })], faults := [] })
      [Ev.produce, Ev.produce, Ev.produce, Ev.get, Ev.produce, Ev.produce, Ev.produce,
        Ev.produce]).1.u.min ≤
    (run (Proc.init "b1" 1 false, { rows := [("b1", { max := 0, step := 2 })], faults := [] })
      [Ev.produce, Ev.produce, Ev.produce, Ev.get, Ev.produce, Ev.produce, Ev.produce,
        Ev.produce]).1.u.max :=
  ⟨by decide, segment_ordered "b1" 1 false _ _ (by decide)⟩

/-- C8 as stated fails: a record with a negative step, with step 0, or with `max + step`
beyond int64 leads to a state with `min > max`. -/
theorem segment_ordered_fails :
    ¬ ((run (Proc.init "b1" 4 false, { rows := [("b1", { max := 5, step := -3 })], faults := [] })
          [Ev.produce]).1.u.min ≤
       (run (Proc.init "b1" 4 false, { rows := [("b1", { max := 5, step := -3 })], faults := [] })
          [Ev.produce]).1.u.max) ∧
    ¬ ((run (Proc.init "b1" 4 false, { rows := [("b1", { max := 5, step := 0 })], faults := [] })
          [Ev.produce, Ev.produce]).1.u.min ≤
       (run (Proc.init "b1" 4 false, { rows := [("b1", { max := 5, step := 0 })], faults := [] })
          [Ev.produce, Ev.produce]).1.u.max) ∧
    ¬ ((run (Proc.init "b1" 4 false,
            { rows := [("b1", { max := 9223372036854775807, step := 1 })], faults := [] })
          [Ev.produce]).1.u.min ≤
       (run (Proc.init "b1" 4 false,
            { rows := [("b1", { max := 9223372036854775807, step := 1 })], faults := [] })
          [Ev.produce]).1.u.max) := by
  decide

/-! ### Increasing identifiers (C2) -/

theorem move_mono (p : Bool) (a b : Proc) (row row2 : Option Row)
    (hm : Move p a row b row2) (h : MonoInv a row)
    (hfit : p = true → reserves a = true → ∀ r, row = some r → Fits r) : MonoInv b row2 := by
  have hseg : SegOK b := move_segOK p a b row row2 hm h.1 hfit
  obtain ⟨⟨h1, h2, h3⟩, hpw, hst, hrest⟩ := h
  refine ⟨hseg, ?_⟩
  cases hm with
  | stay e1 e2 e3 e4 e5 =>
    refine ⟨by rw [e4]; exact hpw, fun hb => by rw [e4]; exact hst (by rw [← e1]; exact hb), ?_⟩
    intro hb
    have ha : a.pc ≠ PC.start := by rw [← e1]; exact hb
    obtain ⟨q1, q2⟩ := hrest ha
    refine ⟨fun r hr => by rw [e3]; exact q1 r (by rw [← e5]; exact hr), ?_⟩
    have : below b = below a := by simp [below, e1, e2]
    rw [e4, this]; exact q2
  | first r hp hpc hr e1 e2 e3 e4 e5 =>
    have hs : a.sent = [] := hst hpc
    obtain ⟨f1, f2, f3⟩ := hfit hp (by simp [reserves, hpc]) r hr
    refine ⟨by rw [e4, hs]; exact List.Pairwise.nil, fun _ => by rw [e4, hs], ?_⟩
    intro _
    refine ⟨?_, by rw [e4, hs]; simp⟩
    intro r2 hr2
    rw [e5] at hr2
    cases hr2
    exact le_of_eq e3
  | again r hp hpc hge hr e1 e2 e3 e4 e5 =>
    obtain ⟨f1, f2, f3⟩ := hfit hp (by simp [reserves, hpc, hge]) r hr
    obtain ⟨q1, q2⟩ := hrest (by rw [hpc]; simp)
    have hw1 : wrap64 (r.max + 1) = r.max + 1 := wrap64_id _ (by omega) (by omega)
    have hb : below b = r.max := by simp [below, e1, e2, hw1]
    have ha : below a = a.u.min := by simp [below, hpc]
    have hle := q1 r hr
    refine ⟨by rw [e4]; exact hpw, fun hq => by rw [e1] at hq; simp at hq, ?_⟩
    intro _
    refine ⟨?_, ?_⟩
    · intro r2 hr2
      rw [e5] at hr2
      cases hr2
      exact le_of_eq e3
    · intro x hx
      rw [e4] at hx
      have := q2 x hx
      rw [hb]; rw [ha] at this; omega
  | incr hpc hlt e1 e2 e3 e4 e5 =>
    obtain ⟨q1, q2⟩ := hrest (by rw [hpc]; simp)
    have hw1 : wrap64 (a.u.min + 1) = a.u.min + 1 := wrap64_id _ (by omega) (by omega)
    have hb : below b = a.u.min := by simp [below, e1, e2, hw1]
    have ha : below a = a.u.min := by simp [below, hpc]
    refine ⟨by rw [e4]; exact hpw, fun hq => by rw [e1] at hq; simp at hq, ?_⟩
    intro _
    refine ⟨fun r hr => by rw [e3]; exact q1 r (by rw [← e5]; exact hr), ?_⟩
    intro x hx
    rw [e4] at hx
    have := q2 x hx
    rw [hb]; rw [ha] at this; exact this
  | send hpc e1 e2 e3 e4 e5 =>
    obtain ⟨q1, q2⟩ := hrest (by rw [hpc]; simp)
    have hb : below b = a.u.min := by simp [below, e1, e2]
    have ha : below a = a.u.min - 1 := by simp [below, hpc]
    refine ⟨?_, fun hq => by rw [e1] at hq; simp at hq, ?_⟩
    · rw [e4, List.pairwise_append]
      refine ⟨hpw, List.pairwise_singleton _ _, ?_⟩
      intro x hx y hy
      have := q2 x hx
      simp at hy
      rw [ha] at this; omega
    · intro _
      refine ⟨fun r hr => by rw [e3]; exact q1 r (by rw [← e5]; exact hr), ?_⟩
      intro x hx
      rw [e4] at hx
      rw [hb]
      rcases List.mem_append.1 hx with hx | hx
      · have := q2 x hx
        rw [ha] at this; omega
      · simp at hx; omega

theorem step_mono (w : Proc × DB) (e : Ev)
    (h : MonoInv w.1 (findRow w.2.rows w.1.u.business))
    (hr : Reads Fits w e ∧ Advances w e) :
    MonoInv (step w e).1 (findRow (step w e).2.rows (step w e).1.u.business) := by
  rw [step_business]
  rcases step_move w e with ⟨p, hp, hm⟩ | ⟨r, he, h2, h3⟩
  · exact move_mono p _ _ _ _ hm h (fun hp1 hres r hrow => hr.1 (hp hp1) hres r hrow)
  · rw [h2, h3]
    obtain ⟨h1, hpw, hst, hrest⟩ := h
    refine ⟨h1, hpw, hst, fun hpc => ⟨?_, (hrest hpc).2⟩⟩
    intro r2 hr2
    have hadv := hr.2
    rw [he] at hadv
    cases hrow : findRow w.2.rows w.1.u.business with
    | none => rw [hrow] at hr2; simp at hr2
    | some r0 =>
      rw [hrow] at hr2
      simp at hr2
      subst hr2
      have := (hrest hpc).1 r0 hrow
      have := hadv r0 hrow
      omega

theorem holds_and (H1 H2 : Proc × DB → Ev → Prop) :
    ∀ (evs : List Ev) (w : Proc × DB), Holds H1 w evs → Holds H2 w evs →
      Holds (fun w e => H1 w e ∧ H2 w e) w evs := by
  intro evs
  induction evs with
  | nil => intro w _ _; trivial
  | cons e es ih => intro w h1 h2; exact ⟨⟨h1.1, h2.1⟩, ih _ h1.2 h2.2⟩

theorem run_mono (business : String) (len : Nat) (loggerSet : Bool) (db : DB)
    (evs : List Ev)
    (hreads : Holds (Reads Fits) (Proc.init business len loggerSet, db) evs)
    (hadv : Holds Advances (Proc.init business len loggerSet, db) evs) :
    MonoInv (run (Proc.init business len loggerSet, db) evs).1
      (findRow (run (Proc.init business len loggerSet, db) evs).2.rows
        (run (Proc.init business len loggerSet, db) evs).1.u.business) := by
  have h0 : MonoInv (Proc.init business len loggerSet, db).1
      (findRow (Proc.init business len loggerSet, db).2.rows
        (Proc.init business len loggerSet, db).1.u.business) := by
    refine ⟨by simp [SegOK, Proc.init, New, MIN64, MAX64], List.Pairwise.nil, fun _ => rfl, ?_⟩
    intro h; simp [Proc.init] at h
  exact run_induction_of
    (fun w => MonoInv w.1 (findRow w.2.rows w.1.u.business))
    (fun w e => Reads Fits w e ∧ Advances w e) step_mono evs _ h0
    (holds_and _ _ evs _ hreads hadv)

/-- C2, amended: in every run of one allocator in which every reservation reads a
record with `step > 0` and `max + step` within int64, and in which other clients never
lower the high-water mark, the values sent on the channel are strictly increasing, hence
pairwise distinct. -/
theorem sent_increasing (business : String) (len : Nat) (loggerSet : Bool) (db : DB)
    (evs : List Ev)
    (hreads : Holds (Reads Fits) (Proc.init business len loggerSet, db) evs)
    (hadv : Holds Advances (Proc.init business len loggerSet, db) evs) :
    (run (Proc.init business len loggerSet, db) evs).1.sent.Pairwise (· < ·) ∧
    (run (Proc.init business len loggerSet, db) evs).1.sent.Nodup := by
  have h := (run_mono business len loggerSet db evs hreads hadv).2.1
  exact ⟨h, h.imp (fun hlt => ne_of_lt hlt)⟩

theorem sent_increasing_witness :
    Holds (Reads Fits) (Proc.init "b1" 1 false, { rows := [("b1", { max := 0, step := 2 })], faults := [] })
      [Ev.produce, Ev.produce, Ev.produce, Ev.get, Ev.produce, Ev.produce,
        Ev.store { max := 7, step := 3 }, Ev.get, Ev.produce, Ev.produce] ∧
    Holds Advances (Proc.init "b1" 1 false, { rows := [("b1", { max := 0, step := 2 })], faults := [] })
      [Ev.produce, Ev.produce, Ev.produce, Ev.get, Ev.produce, Ev.produce,
        Ev.store { max := 7, step := 3 }, Ev.get, Ev.produce, Ev.produce] ∧
    (run (Proc.init "b1" 1 false, { rows := [("b1", { max := 0, step := 2 })], faults := [] })
      [Ev.produce, Ev.produce, Ev.produce, Ev.get, Ev.produce, Ev.produce,
        Ev.store { max := 7, step := 3 }, Ev.get, Ev.produce, Ev.produce]).1.sent = [1, 2, 8] ∧
    ((run (Proc.init "b1" 1 false, { rows := [("b1", { max := 0, step := 2 })], faults := [] })
      [Ev.produce, Ev.produce, Ev.produce, Ev.get, Ev.produce, Ev.produce,
        Ev.store { max := 7, step := 3 }, Ev.get, Ev.produce, Ev.produce]).1.sent.Pairwise (· < ·) ∧
     (run (Proc.init "b1" 1 false, { rows := [("b1", { max := 0, step := 2 })], faults := [] })
      [Ev.produce, Ev.produce, Ev.produce, Ev.get, Ev.produce, Ev.produce,
        Ev.store { max := 7, step := 3 }, Ev.get, Ev.produce, Ev.produce]).1.sent.Nodup) :=
  ⟨by decide, by decide, by decide, sent_increasing "b1" 1 false _ _ (by decide) (by decide)⟩

/-- C2 as stated fails: from the record `(max = 2^63 - 2, step = 1)`, every reservation
reading a positive step and nobody else touching the record, the goroutine sends
`2^63 - 1` and then `-2^63`. -/
theorem sent_increasing_fails :
    Holds (Reads StepPos)
      (Proc.init "b1" 4 false,
        { rows := [("b1", { max := 9223372036854775806, step := 1 })], faults := [] })
      [Ev.produce, Ev.produce, Ev.produce, Ev.produce, Ev.produce] ∧
    Holds Advances
      (Proc.init "b1" 4 false,
        { rows := [("b1", { max := 9223372036854775806, step := 1 })], faults := [] })
      [Ev.produce, Ev.produce, Ev.produce, Ev.produce, Ev.produce] ∧
    (run (Proc.init "b1" 4 false,
        { rows := [("b1", { max := 9223372036854775806, step := 1 })], faults := [] })
      [Ev.produce, Ev.produce, Ev.produce, Ev.produce, Ev.produce]).1.sent
      = [9223372036854775807, -9223372036854775808] ∧
    ¬ (run (Proc.init "b1" 4 false,
        { rows := [("b1", { max := 9223372036854775806, step := 1 })], faults := [] })
      [Ev.produce, Ev.produce, Ev.produce, Ev.produce, Ev.produce]).1.sent.Pairwise (· < ·) := by
  decide

/-! ### Identifiers of one segment (C9) -/

/-- Inside a segment the refill loop counts up from `min` without touching the store. -/
theorem refill_segment (loggerSet : Bool) (fuel : Nat) (db : DB) :
    ∀ (n : Nat) (u : UID) (out : List Int),
      MIN64 ≤ u.min → u.max ≤ MAX64 → u.min + n ≤ u.max →
      refill loggerSet fuel n u db out =
        some ({ u with min := u.min + n }, db,
              out ++ (List.range n).map (fun i : Nat => u.min + 1 + i)) := by
  intro n
  induction n with
  | zero =>
    intro u out _ _ _
    simp [refill]
  | succ n ih =>
    intro u out h1 h2 h3
    have hnot : ¬ (u.min ≥ u.max) := by omega
    have hw : wrap64 (u.min + 1) = u.min + 1 := wrap64_id _ (by omega) (by omega)
    have hpn : produceNext loggerSet fuel u db =
        some { err := none, u := { u with min := u.min + 1 }, db := db,
               reports := [], attempts := 0 } := by
      simp only [produceNext, hnot, if_false, hw]
    simp only [refill, hpn]
    rw [ih { u with min := u.min + 1 } (out ++ [u.min + 1]) (by simp; omega) (by simpa using h2)
      (by simp; omega)]
    have hl : (List.range (n + 1)).map (fun i : Nat => u.min + 1 + (i : Int)) =
        (u.min + 1) :: (List.range n).map (fun i : Nat => u.min + 1 + 1 + (i : Int)) := by
      rw [List.range_succ_eq_map, List.map_cons, List.map_map]
      congr 1
      · simp
      · apply List.map_congr_left
        intro i _
        simp
        omega
    have hm : u.min + 1 + (n : Int) = u.min + ((n + 1 : Nat) : Int) := by
      push_cast; omega
    simp only [List.append_assoc, List.singleton_append, hl, hm]

/-- C9, amended: a reservation reads `(max = p, step = s)` with `s > 0` and `p + s`
within int64.  In its next `n ≤ s` iterations the refill loop sends `p + 1, ..., p + n`
without another reservation, be the reservation the one of `getFromDB` before the loop
or the one made by the first of these iterations on a used-up segment.  Each value lies
in `(p, p + s]`: `p` is the exclusive lower bound and `p + s` the inclusive upper bound,
reached when `n = s`, where the segment is used up (`min = max`). -/
theorem segment_ids (loggerSet : Bool) (fuel : Nat) (u : UID) (db : DB) (p s : Int)
    (hrow : findRow db.rows u.business = some { max := p, step := s })
    (hok : nextFault db.faults = Fault.ok)
    (hp : MIN64 ≤ p) (hs : 0 < s) (hfit : p + s ≤ MAX64) (n : Nat) (hn : (n : Int) ≤ s) :
    (getFromDB u db).err = none ∧
    refill loggerSet fuel n (getFromDB u db).u (getFromDB u db).db [] =
      some ({ u with min := p + n, max := p + s }, (getFromDB u db).db,
            (List.range n).map (fun i : Nat => p + 1 + i)) ∧
    (u.max ≤ u.min → 1 ≤ n →
      refill loggerSet (fuel + 1) n u db [] =
        some ({ u with min := p + n, max := p + s }, (getFromDB u db).db,
              (List.range n).map (fun i : Nat => p + 1 + i))) ∧
    (∀ x ∈ (List.range n).map (fun i : Nat => p + 1 + (i : Int)), p < x ∧ x ≤ p + s) ∧
    ((n : Int) = s → (List.range n).map (fun i : Nat => p + 1 + (i : Int)) ≠ [] ∧
      ((List.range n).map (fun i : Nat => p + 1 + (i : Int))).getLast? = some (p + s)) := by
  have hw : wrap64 (p + s) = p + s := wrap64_id _ (by omega) hfit
  have hw1 : wrap64 (p + 1) = p + 1 := wrap64_id _ (by omega) (by omega)
  have hg := getFromDB_ok u db _ hrow hok
  simp only [hw] at hg
  rw [hg]
  refine ⟨rfl, ?_, ?_, ?_, ?_⟩
  · have h := refill_segment loggerSet fuel
      { rows := setMax db.rows u.business (p + s), faults := db.faults.tail } n
      { u with min := p, max := p + s } [] hp hfit (by simp; omega)
    simpa using h
  · intro hge hn1
    cases n with
    | zero => omega
    | succ m =>
      have h : reLoad loggerSet (fuel + 1) u db = _ :=
        reLoad_script loggerSet u _ db.rows hrow db.faults hok [] [] (fuel + 1) rfl (by simp)
      have hpn : produceNext loggerSet (fuel + 1) u db =
          some { err := none,
                 u := { u with min := p + 1, max := p + s },
                 db := { rows := setMax db.rows u.business (p + s),
                         faults := db.faults.tail },
                 reports := [], attempts := 1 } := by
        have hge2 : u.min ≥ u.max := hge
        simp only [produceNext, hge2, if_true, h, hw, hw1]
        rfl
      simp only [refill, hpn]
      have h2 := refill_segment loggerSet (fuel + 1)
        { rows := setMax db.rows u.business (p + s), faults := db.faults.tail } m
        { u with min := p + 1, max := p + s } ([] ++ [p + 1]) (by simp; omega) hfit
        (by simp; push_cast at hn; omega)
      rw [h2]
      have hl : (List.range (m + 1)).map (fun i : Nat => p + 1 + (i : Int)) =
          (p + 1) :: (List.range m).map (fun i : Nat => p + 1 + 1 + (i : Int)) := by
        rw [List.range_succ_eq_map, List.map_cons, List.map_map]
        congr 1
        · simp
        · apply List.map_congr_left
          intro i _
          simp
          omega
      have hm : p + 1 + (m : Int) = p + ((m + 1 : Nat) : Int) := by
        push_cast; omega
      simp only [List.nil_append, List.singleton_append, hl, hm]
  · intro x hx
    simp only [List.mem_map, List.mem_range] at hx
    obtain ⟨i, hi, rfl⟩ := hx
    omega
  · intro hns
    cases n with
    | zero => simp at hns; omega
    | succ m =>
      refine ⟨by simp, ?_⟩
      rw [List.range_succ, List.map_append]
      simp
      push_cast at hns
      omega

theorem segment_ids_witness :
    (getFromDB (New "b1" 4) { rows := [("b1", { max := 0, step := 2 })], faults := [] }).err = none ∧
    refill false 0 2
      (getFromDB (New "b1" 4) { rows := [("b1", { max := 0, step := 2 })], faults := [] }).u
      (getFromDB (New "b1" 4) { rows := [("b1", { max := 0, step := 2 })], faults := [] }).db [] =
      some ({ New "b1" 4 with min := 0 + (2 : Nat), max := 0 + 2 },
            (getFromDB (New "b1" 4) { rows := [("b1", { max := 0, step := 2 })], faults := [] }).db,
            (List.range 2).map (fun i : Nat => (0 : Int) + 1 + i)) ∧
    ((New "b1" 4).max ≤ (New "b1" 4).min → 1 ≤ 2 →
      refill false (0 + 1) 2 (New "b1" 4)
        { rows := [("b1", { max := 0, step := 2 })], faults := [] } [] =
        some ({ New "b1" 4 with min := 0 + (2 : Nat), max := 0 + 2 },
              (getFromDB (New "b1" 4)
                { rows := [("b1", { max := 0, step := 2 })], faults := [] }).db,
              (List.range 2).map (fun i : Nat => (0 : Int) + 1 + i))) ∧
    (∀ x ∈ (List.range 2).map (fun i : Nat => (0 : Int) + 1 + (i : Int)), 0 < x ∧ x ≤ 0 + 2) ∧
    (((2 : Nat) : Int) = 2 → (List.range 2).map (fun i : Nat => (0 : Int) + 1 + (i : Int)) ≠ [] ∧
      ((List.range 2).map (fun i : Nat => (0 : Int) + 1 + (i : Int))).getLast? = some (0 + 2)) :=
  segment_ids false 0 (New "b1" 4) { rows := [("b1", { max := 0, step := 2 })], faults := [] } 0 2
    (by decide) (by decide) (by decide) (by decide) (by decide) 2 (by decide)

/-- C9 as stated fails: the segment reserved from `(max = 0, step = 2)` yields the
identifiers 1 and 2 without another reservation, and 2 is not in `[0, 2)`. -/
theorem segment_ids_fails :
    refill false 1 2
      (getFromDB (New "b1" 4) { rows := [("b1", { max := 0, step := 2 })], faults := [] }).u
      (getFromDB (New "b1" 4) { rows := [("b1", { max := 0, step := 2 })], faults := [] }).db [] =
      some ({ New "b1" 4 with min := 2, max := 2 },
            (getFromDB (New "b1" 4) { rows := [("b1", { max := 0, step := 2 })], faults := [] }).db,
            [1, 2]) ∧
    ¬ (∀ x ∈ ((refill false 1 2
        (getFromDB (New "b1" 4) { rows := [("b1", { max := 0, step := 2 })], faults := [] }).u
        (getFromDB (New "b1" 4) { rows := [("b1", { max := 0, step := 2 })], faults := [] }).db
        []).map (fun q => q.2.2)).getD [], (0 : Int) ≤ x ∧ x < 0 + 2) := by
  decide

/-! ### The k-th identifier (C1) -/

theorem move_sent (p : Bool) (a b : Proc) (row row2 : Option Row) (hm : Move p a row b row2) :
    b.sent = a.sent ∨ b.sent = a.sent ++ [a.u.min] := by
  cases hm with
  | stay e1 e2 e3 e4 e5 => exact Or.inl e4
  | first r hp hpc hr e1 e2 e3 e4 e5 => exact Or.inl e4
  | again r hp hpc hge hr e1 e2 e3 e4 e5 => exact Or.inl e4
  | incr hpc hlt e1 e2 e3 e4 e5 => exact Or.inl e4
  | send hpc e1 e2 e3 e4 e5 => exact Or.inr e4

theorem counted_snoc (M : Int) (l : List Int) (h : Counted M l) :
    Counted M (l ++ [M + l.length + 1]) := by
  unfold Counted at *
  rw [List.length_append, List.length_singleton, List.range_succ, List.map_append, ← h]
  simp
  omega

theorem move_kth (M s : Int) (k j : Nat) (hM : MIN64 ≤ M) (hs : 0 < s) (hk : 1 ≤ k)
    (hkj : (k : Int) ≤ j * s) (hj : M + j * s ≤ MAX64)
    (p : Bool) (a b : Proc) (row row2 : Option Row)
    (hm : Move p a row b row2) (h : Kth M s k a row) : Kth M s k b row2 := by
  by_cases hn : a.sent.length < k
  · obtain ⟨hcnt, hst, hrest⟩ := h.1 hn
    cases hm with
    | stay e1 e2 e3 e4 e5 =>
      have hc : Clean M s b row2 := by
        refine ⟨by rw [e4]; exact hcnt, ?_, ?_⟩
        · intro hb; rw [e4, e5]; exact hst (by rw [← e1]; exact hb)
        · intro hb
          obtain ⟨i, q1, q2, q3, q4, q5⟩ := hrest (by rw [← e1]; exact hb)
          exact ⟨i, by rw [e5]; exact q1, by rw [e3]; exact q2, q3, by rw [e2, e3]; exact q4,
            by rw [e1, e2, e4]; exact q5⟩
      exact ⟨fun _ => hc, fun hq => by rw [e4] at hq; omega⟩
    | first r hp hpc hr e1 e2 e3 e4 e5 =>
      obtain ⟨hs0, hr0⟩ := hst hpc
      rw [hr0] at hr
      cases hr
      have hj1 : (1 : Int) ≤ j := by
        by_contra hc
        have hj0 : (j : Int) = 0 := by omega
        rw [hj0] at hkj
        simp at hkj
        omega
      have hsj : s ≤ j * s := le_mul_of_one_le_left (le_of_lt hs) hj1
      have hw : wrap64 (M + s) = M + s := wrap64_id _ (by omega) (by omega)
      dsimp only at e2 e3 e5
      simp only [hw] at e3 e5
      have hc : Clean M s b row2 := by
        refine ⟨by rw [e4, hs0]; simp [Counted], fun hb => by rw [e1] at hb; simp at hb, ?_⟩
        intro _
        refine ⟨1, by rw [e5]; simp, by rw [e3]; simp, by simp; omega, by rw [e2, e3]; omega, ?_⟩
        rw [e1, e2, e4, hs0]; simp
      exact ⟨fun _ => hc, fun hq => by rw [e4, hs0] at hq; simp at hq; omega⟩
    | again r hp hpc hge hr e1 e2 e3 e4 e5 =>
      obtain ⟨i, q1, q2, q3, q4, q5⟩ := hrest (by rw [hpc]; simp)
      rw [q1] at hr
      cases hr
      simp only [hpc] at q5
      simp at q5
      have hn2 : (a.sent.length : Int) = i * s := by omega
      have hlt : (i : Int) * s < j * s := by
        have : (a.sent.length : Int) < k := by exact_mod_cast hn
        omega
      have hij : (i : Int) < j := lt_of_mul_lt_mul_right hlt (le_of_lt hs)
      have hle : ((i : Int) + 1) * s ≤ j * s :=
        mul_le_mul_of_nonneg_right (by omega) (le_of_lt hs)
      have hexp : ((i : Int) + 1) * s = i * s + s := by ring
      have hw : wrap64 (M + i * s + s) = M + i * s + s := wrap64_id _ (by omega) (by omega)
      have hw1 : wrap64 (M + i * s + 1) = M + i * s + 1 := wrap64_id _ (by omega) (by omega)
      simp only [hw, hw1] at e2 e3 e5
      have hc : Clean M s b row2 := by
        refine ⟨by rw [e4]; exact hcnt, fun hb => by rw [e1] at hb; simp at hb, ?_⟩
        intro _
        refine ⟨i + 1, ?_, ?_, ?_, ?_, ?_⟩
        · rw [e5]; push_cast; rw [hexp]; simp; ring
        · rw [e3]; push_cast; rw [hexp]; ring
        · push_cast; rw [hexp]; omega
        · rw [e2, e3]; omega
        · rw [e1, e2, e4]; simp; omega
      exact ⟨fun _ => hc, fun hq => by rw [e4] at hq; omega⟩
    | incr hpc hlt e1 e2 e3 e4 e5 =>
      obtain ⟨i, q1, q2, q3, q4, q5⟩ := hrest (by rw [hpc]; simp)
      simp only [hpc] at q5
      simp at q5
      have hw1 : wrap64 (a.u.min + 1) = a.u.min + 1 := wrap64_id _ (by omega) (by omega)
      rw [hw1] at e2
      have hc : Clean M s b row2 := by
        refine ⟨by rw [e4]; exact hcnt, fun hb => by rw [e1] at hb; simp at hb, ?_⟩
        intro _
        refine ⟨i, by rw [e5]; exact q1, by rw [e3]; exact q2, q3, by rw [e2, e3]; omega, ?_⟩
        rw [e1, e2, e4]; simp; omega
      exact ⟨fun _ => hc, fun hq => by rw [e4] at hq; omega⟩
    | send hpc e1 e2 e3 e4 e5 =>
      obtain ⟨i, q1, q2, q3, q4, q5⟩ := hrest (by rw [hpc]; simp)
      simp only [hpc] at q5
      simp at q5
      have hsnoc : b.sent = a.sent ++ [M + a.sent.length + 1] := by rw [e4, q5]
      have hlen : b.sent.length = a.sent.length + 1 := by rw [hsnoc]; simp
      constructor
      · intro _
        refine ⟨by rw [hsnoc]; exact counted_snoc M _ hcnt, fun hb => by rw [e1] at hb; simp at hb, ?_⟩
        intro _
        refine ⟨i, by rw [e5]; exact q1, by rw [e3]; exact q2, q3, by rw [e2, e3]; exact q4, ?_⟩
        rw [e1, e2, hlen]; simp; omega
      · intro hq
        have hk2 : k = a.sent.length + 1 := by omega
        rw [hsnoc, hk2]
        simp
        omega
  · have hk1 : k ≤ a.sent.length := by omega
    have hkth := h.2 hk1
    have hlt : k - 1 < a.sent.length := by omega
    rcases move_sent p a b row row2 hm with e | e
    · exact ⟨fun hq => by rw [e] at hq; omega, fun _ => by rw [e]; exact hkth⟩
    · refine ⟨fun hq => by rw [e] at hq; simp at hq; omega, fun _ => ?_⟩
      rw [e, List.getElem?_append_left hlt]
      exact hkth

theorem run_induction_quiet (I : Proc × DB → Prop)
    (hstep : ∀ w e, (e = Ev.produce ∨ e = Ev.get) → I w → I (step w e)) :
    ∀ (evs : List Ev) (w : Proc × DB), (∀ e ∈ evs, e = Ev.produce ∨ e = Ev.get) →
      I w → I (run w evs) := by
  intro evs
  induction evs with
  | nil => intro w _ h; exact h
  | cons e es ih =>
    intro w hq h
    exact ih (step w e) (fun e2 he2 => hq e2 (by simp [he2])) (hstep w e (hq e (by simp)) h)

theorem step_kth (M s : Int) (k j : Nat) (hM : MIN64 ≤ M) (hs : 0 < s) (hk : 1 ≤ k)
    (hkj : (k : Int) ≤ j * s) (hj : M + j * s ≤ MAX64) (w : Proc × DB) (e : Ev)
    (he : e = Ev.produce ∨ e = Ev.get)
    (h : Kth M s k w.1 (findRow w.2.rows w.1.u.business)) :
    Kth M s k (step w e).1 (findRow (step w e).2.rows (step w e).1.u.business) := by
  rw [step_business]
  rcases step_move w e with ⟨p, _, hm⟩ | ⟨r, he2, _, _⟩
  · exact move_kth M s k j hM hs hk hkj hj p _ _ _ _ hm h
  · rcases he with he | he <;> rw [he] at he2 <;> simp at he2

theorem produceStep_start (a : Proc) (db : DB) (row : Row) (hpc : a.pc = PC.start)
    (hrow : findRow db.rows a.u.business = some row) :
    (produceStep a db).1.pc = PC.loop ∧ (produceStep a db).1.u.ch = a.u.ch ∧
    (produceStep a db).1.got = a.got ∧
    ∃ row2, findRow (produceStep a db).2.rows a.u.business = some row2 := by
  obtain ⟨r, h1, _, h3, h4, _⟩ :=
    reLoad_total a.loggerSet a.u db row hrow (fuelFor db) (by simp [fuelFor])
  simp only [produceStep, hpc, h1]
  refine ⟨trivial, by simp [h3], trivial, ?_⟩
  simp [h4, findRow_setMax, hrow]

theorem produceStep_loop (a : Proc) (db : DB) (row : Row) (hpc : a.pc = PC.loop)
    (hrow : findRow db.rows a.u.business = some row) :
    (produceStep a db).1.pc = PC.send ∧ (produceStep a db).1.u.ch = a.u.ch ∧
    (produceStep a db).1.got = a.got ∧
    ∃ row2, findRow (produceStep a db).2.rows a.u.business = some row2 := by
  by_cases hge : a.u.min ≥ a.u.max
  · obtain ⟨r, h1, _, h3, h4, _⟩ :=
      reLoad_total a.loggerSet a.u db row hrow (fuelFor db) (by simp [fuelFor])
    simp only [produceStep, hpc, produceNext, hge, if_true, h1]
    refine ⟨trivial, by simp [h3], trivial, ?_⟩
    simp [h4, findRow_setMax, hrow]
  · simp only [produceStep, hpc, produceNext, hge, if_false]
    exact ⟨trivial, trivial, trivial, row, hrow⟩

theorem getStep_handoff (a : Proc) (hpc : a.pc = PC.send) (hch : a.u.ch = []) :
    (getStep a).pc = PC.loop ∧ (getStep a).u.ch = [] ∧ (getStep a).got = a.got ++ [a.u.min] := by
  simp [getStep, Get, hpc, hch]

theorem ready_serve : ∀ (k n : Nat) (w : Proc × DB), Ready n w → Ready (n + k) (run w (serve k)) := by
  intro k
  induction k with
  | zero => intro n w h; exact h
  | succ k ih =>
    intro n w h
    obtain ⟨h1, h2, h3, row, h4⟩ := h
    obtain ⟨p1, p2, p3, row2, p4⟩ := produceStep_loop w.1 w.2 row h1 h4
    obtain ⟨g1, g2, g3⟩ := getStep_handoff (produceStep w.1 w.2).1 p1 (by rw [p2]; exact h2)
    have hr : Ready (n + 1) (step (step w Ev.produce) Ev.get) := by
      refine ⟨g1, g2, ?_, row2, ?_⟩
      · show (getStep (produceStep w.1 w.2).1).got.length = n + 1
        rw [g3, p3]; simp [h3]
      · show findRow (produceStep w.1 w.2).2.rows (getStep (produceStep w.1 w.2).1).u.business = _
        rw [getStep_business, produceStep_business]; exact p4
    have := ih (n + 1) _ hr
    rw [show n + (k + 1) = n + 1 + k by omega]
    exact this

theorem serve_quiet : ∀ (n : Nat), ∀ e ∈ serve n, e = Ev.produce ∨ e = Ev.get := by
  intro n
  induction n with
  | zero => intro e he; simp [serve] at he
  | succ n ih =>
    intro e he
    simp only [serve, List.mem_cons] at he
    rcases he with he | he | he
    · exact Or.inl he
    · exact Or.inr he
    · exact ih e he

/-- C1: one allocator alone on the record `(max = M, step = s)`, `s > 0`, the
reservations of the segments that hold the first `k` identifiers staying within int64
(`j` segments reach `k`, and `M + j * s` fits).  In every run of the goroutine and of
`Get` calls the `k`-th value sent on the channel, once sent, is `M + k`, and so is the
`k`-th value returned by successful `Get` calls; and the run in which each value is
taken as soon as it is prepared returns `k` values, the `k`-th being `M + k`. -/
theorem kth_identifier (business : String) (len : Nat) (loggerSet : Bool) (db : DB)
    (M s : Int) (k j : Nat)
    (hrow : findRow db.rows business = some { max := M, step := s })
    (hM : MIN64 ≤ M) (hs : 0 < s) (hk : 1 ≤ k)
    (hkj : (k : Int) ≤ j * s) (hj : M + j * s ≤ MAX64) :
    (∀ evs : List Ev, (∀ e ∈ evs, e = Ev.produce ∨ e = Ev.get) →
      (k ≤ (run (Proc.init business len loggerSet, db) evs).1.sent.length →
        (run (Proc.init business len loggerSet, db) evs).1.sent[k - 1]? = some (M + k)) ∧
      (k ≤ (run (Proc.init business len loggerSet, db) evs).1.got.length →
        (run (Proc.init business len loggerSet, db) evs).1.got[k - 1]? = some (M + k))) ∧
    (run (Proc.init business len loggerSet, db) (Ev.produce :: serve k)).1.got.length = k ∧
    (run (Proc.init business len loggerSet, db) (Ev.produce :: serve k)).1.got[k - 1]?
      = some (M + k) := by
  have hall : ∀ evs : List Ev, (∀ e ∈ evs, e = Ev.produce ∨ e = Ev.get) →
      (k ≤ (run (Proc.init business len loggerSet, db) evs).1.sent.length →
        (run (Proc.init business len loggerSet, db) evs).1.sent[k - 1]? = some (M + k)) ∧
      (k ≤ (run (Proc.init business len loggerSet, db) evs).1.got.length →
        (run (Proc.init business len loggerSet, db) evs).1.got[k - 1]? = some (M + k)) := by
    intro evs hq
    have h0 : Kth M s k (Proc.init business len loggerSet, db).1
        (findRow (Proc.init business len loggerSet, db).2.rows
          (Proc.init business len loggerSet, db).1.u.business) := by
      constructor
      · intro _
        refine ⟨by simp [Counted, Proc.init], fun _ => ⟨rfl, hrow⟩, fun h => ?_⟩
        simp [Proc.init] at h
      · intro h
        simp [Proc.init] at h
        omega
    have hkth := run_induction_quiet
      (fun w => Kth M s k w.1 (findRow w.2.rows w.1.u.business))
      (fun w e he h => step_kth M s k j hM hs hk hkj hj w e he h) evs _ hq h0
    have hfifo := run_induction (fun w => w.1.got ++ w.1.u.ch = w.1.sent) step_fifo evs
      (Proc.init business len loggerSet, db) rfl
    refine ⟨hkth.2, fun hg => ?_⟩
    have hlt : k - 1 < (run (Proc.init business len loggerSet, db) evs).1.got.length := by omega
    have hlen : k ≤ (run (Proc.init business len loggerSet, db) evs).1.sent.length := by
      have := congrArg List.length hfifo
      simp only [List.length_append] at this
      omega
    have hs2 := hkth.2 hlen
    simp only at hfifo
    rw [← hfifo, List.getElem?_append_left hlt] at hs2
    exact hs2
  have hready : Ready (0 + k) (run (Proc.init business len loggerSet, db) (Ev.produce :: serve k)) := by
    rw [run_cons]
    apply ready_serve
    obtain ⟨p1, p2, p3, row2, p4⟩ := produceStep_start (Proc.init business len loggerSet) db _ rfl hrow
    refine ⟨p1, p2.trans rfl, (congrArg List.length p3).trans rfl, row2, ?_⟩
    show findRow (produceStep _ db).2.rows (produceStep _ db).1.u.business = _
    rw [produceStep_business]
    exact p4
  have hlen : (run (Proc.init business len loggerSet, db) (Ev.produce :: serve k)).1.got.length = k := by
    have := hready.2.2.1
    omega
  refine ⟨hall, hlen, ?_⟩
  refine (hall (Ev.produce :: serve k) ?_).2 (le_of_eq hlen.symm)
  intro e he
  simp only [List.mem_cons] at he
  rcases he with he | he
  · exact Or.inl he
  · exact serve_quiet k e he

theorem kth_identifier_witness :
    (findRow [("b1", { max := 0, step := 100 })] "b1" = some { max := 0, step := 100 } ∧
      ((101 : Nat) : Int) ≤ ((2 : Nat) : Int) * 100 ∧ (0 : Int) + ((2 : Nat) : Int) * 100 ≤ MAX64) ∧
    (run (Proc.init "b1" 100 false, { rows := [("b1", { max := 0, step := 100 })], faults := [] })
      (Ev.produce :: serve 101)).1.got[101 - 1]? = some ((0 : Int) + ((101 : Nat) : Int)) :=
  ⟨⟨by decide, by decide, by decide⟩,
   (kth_identifier "b1" 100 false { rows := [("b1", { max := 0, step := 100 })], faults := [] }
      0 100 101 2 (by decide) (by decide) (by decide) (by decide) (by decide) (by decide)).2.2⟩

/-! ### Two allocators (C3) -/

theorem move_effect (p : Bool) (a b : Proc) (row row2 : Option Row)
    (hm : Move p a row b row2) (h : MonoInv a row)
    (hfit : p = true → reserves a = true → ∀ r, row = some r → Fits r) :
    Effect a row b row2 := by
  obtain ⟨⟨h1, h2, h3⟩, hpw, hst, hrest⟩ := h
  cases hm with
  | stay e1 e2 e3 e4 e5 =>
    exact Or.inl ⟨by rw [e1], by simp [below, e1, e2], e3, e4, e5⟩
  | first r hp hpc hr e1 e2 e3 e4 e5 =>
    obtain ⟨f1, f2, f3⟩ := hfit hp (by simp [reserves, hpc]) r hr
    have hw : wrap64 (r.max + r.step) = r.max + r.step := wrap64_id _ (by omega) f3
    rw [hw] at e3 e5
    exact Or.inr (Or.inl ⟨r, hr, ⟨f1, f2, f3⟩, by rw [e1]; simp, by simp [below, e1, e2], e3, e4, e5⟩)
  | again r hp hpc hge hr e1 e2 e3 e4 e5 =>
    obtain ⟨f1, f2, f3⟩ := hfit hp (by simp [reserves, hpc, hge]) r hr
    have hw : wrap64 (r.max + r.step) = r.max + r.step := wrap64_id _ (by omega) f3
    have hw1 : wrap64 (r.max + 1) = r.max + 1 := wrap64_id _ (by omega) (by omega)
    rw [hw] at e3 e5
    rw [hw1] at e2
    exact Or.inr (Or.inl ⟨r, hr, ⟨f1, f2, f3⟩, by rw [e1]; simp, by simp [below, e1, e2], e3, e4, e5⟩)
  | incr hpc hlt e1 e2 e3 e4 e5 =>
    have hw1 : wrap64 (a.u.min + 1) = a.u.min + 1 := wrap64_id _ (by omega) (by omega)
    rw [hw1] at e2
    exact Or.inl ⟨by rw [e1, hpc]; simp, by simp [below, e1, e2, hpc], e3, e4, e5⟩
  | send hpc e1 e2 e3 e4 e5 =>
    have hb : below b = a.u.min := by simp [below, e1, e2]
    have ha : below a = a.u.min - 1 := by simp [below, hpc]
    refine Or.inr (Or.inr ⟨by rw [hpc]; simp, by rw [e1]; simp, by rw [hb, ha]; omega,
      by rw [hb]; exact h1, e3, ?_, e5⟩)
    rw [e4, ha]; simp

theorem inv2_symm (a b : Proc) (row : Option Row) (h : Inv2 a b row) : Inv2 b a row := by
  obtain ⟨h1, h2, h3, h4, h5, h6⟩ := h
  exact ⟨h2, h1, fun x hx hxa => h3 x hxa hx, h5, h4, fun hb ha => (h6 ha hb).symm⟩

theorem below_le_max (a : Proc) (h : SegOK a) : below a ≤ a.u.max := by
  obtain ⟨h1, _, _⟩ := h
  unfold below
  split <;> omega

theorem effect_inv2 (a a2 b : Proc) (row row2 : Option Row)
    (he : Effect a row a2 row2) (hmono : MonoInv a2 row2) (h : Inv2 a b row) :
    Inv2 a2 b row2 := by
  obtain ⟨ha, hb, hdis, hcab, hcba, hap⟩ := h
  have hbl : below b ≤ b.u.max := below_le_max b hb.1
  rcases he with ⟨e1, e2, e3, e4, e5⟩ | ⟨r, hr, ⟨f1, f2, f3⟩, e1, e2, e3, e4, e5⟩ |
      ⟨e0, e1, e2, e2b, e3, e4, e5⟩
  · refine ⟨hmono, by rw [e5]; exact hb, by rw [e4]; exact hdis, ?_, ?_, ?_⟩
    · intro hpc y hy
      rw [e2, e3]
      exact hcab (fun hq => hpc (e1.2 hq)) y hy
    · intro hpc y hy
      rw [e4] at hy
      exact hcba hpc y hy
    · intro hpc hpb
      rw [e2, e3]
      exact hap (fun hq => hpc (e1.2 hq)) hpb
  · have hb2 : MonoInv b row2 := by
      obtain ⟨q1, q2, q3, q4⟩ := hb
      refine ⟨q1, q2, q3, fun hpc => ⟨?_, (q4 hpc).2⟩⟩
      intro r2 hr2
      rw [e5] at hr2
      cases hr2
      have := (q4 hpc).1 r hr
      simp only
      omega
    refine ⟨hmono, hb2, by rw [e4]; exact hdis, ?_, ?_, ?_⟩
    · intro _ y hy
      left
      rw [e2]
      by_cases hpb : b.pc = PC.start
      · rw [hb.2.2.1 hpb] at hy; simp at hy
      · have q1 := (hb.2.2.2 hpb).1 r hr
        have q2 := (hb.2.2.2 hpb).2 y hy
        omega
    · intro hpc y hy
      rw [e4] at hy
      by_cases hpa : a.pc = PC.start
      · rw [ha.2.2.1 hpa] at hy; simp at hy
      · exact hcba hpc y hy
    · intro _ hpb
      right
      rw [e2]
      exact (hb.2.2.2 hpb).1 r hr
  · refine ⟨hmono, by rw [e5]; exact hb, ?_, ?_, ?_, ?_⟩
    · intro x hx hxb
      rw [e4] at hx
      rcases List.mem_append.1 hx with hx | hx
      · exact hdis x hx hxb
      · simp at hx
        subst hx
        rcases hcab e0 _ hxb with hq | hq
        · omega
        · rw [e2] at e2b; omega
    · intro _ y hy
      rw [e2, e3]
      rcases hcab e0 y hy with hq | hq
      · left; omega
      · right; exact hq
    · intro hpb y hy
      rw [e4] at hy
      rcases List.mem_append.1 hy with hy | hy
      · exact hcba hpb y hy
      · simp at hy
        subst hy
        rw [e2] at e2b
        rcases hap e0 hpb with hq | hq
        · left; omega
        · right; omega
    · intro _ hpb
      rw [e2, e3]
      rcases hap e0 hpb with hq | hq
      · left; exact hq
      · right; omega

theorem move_inv2 (p : Bool) (a a2 b : Proc) (row row2 : Option Row)
    (hm : Move p a row a2 row2) (h : Inv2 a b row)
    (hfit : p = true → reserves a = true → ∀ r, row = some r → Fits r) : Inv2 a2 b row2 :=
  effect_inv2 a a2 b row row2 (move_effect p a a2 row row2 hm h.1 hfit)
    (move_mono p a a2 row row2 hm h.1 hfit) h

theorem step2_inv (w : World2) (e : Ev2) (h : Inv2W w) (hr : Reads2 Fits w e) :
    Inv2W (step2 w e) := by
  obtain ⟨hk, hi⟩ := h
  cases e with
  | produceA =>
    have hm := produceStep_move w.a w.db
    have hb := produceStep_business w.a w.db
    refine ⟨by simp only [step2]; rw [hb]; exact hk, ?_⟩
    simp only [step2]
    rw [hb]
    exact move_inv2 true _ _ _ _ _ hm hi (fun _ hres r hrow => hr hres r hrow)
  | getA =>
    have hm := getStep_move w.a (findRow w.db.rows w.a.u.business)
    have hb := getStep_business w.a
    refine ⟨by simp only [step2]; rw [hb]; exact hk, ?_⟩
    simp only [step2]
    rw [hb]
    exact move_inv2 false _ _ _ _ _ hm hi (fun hp => by simp at hp)
  | produceB =>
    have hm := produceStep_move w.b w.db
    have hb := produceStep_business w.b w.db
    refine ⟨by simp only [step2]; rw [hb]; exact hk, ?_⟩
    simp only [step2]
    rw [hk]
    exact inv2_symm _ _ _ (move_inv2 true _ _ _ _ _ hm (inv2_symm _ _ _ (hk ▸ hi))
      (fun _ hres r hrow => hr hres r hrow))
  | getB =>
    have hm := getStep_move w.b (findRow w.db.rows w.a.u.business)
    have hb := getStep_business w.b
    refine ⟨by simp only [step2]; rw [hb]; exact hk, ?_⟩
    simp only [step2]
    exact inv2_symm _ _ _ (move_inv2 false _ _ _ _ _ hm (inv2_symm _ _ _ hi)
      (fun hp => by simp at hp))

theorem run2_inv : ∀ (evs : List Ev2) (w : World2), Inv2W w → Holds2 (Reads2 Fits) w evs →
    Inv2W (run2 w evs) := by
  intro evs
  induction evs with
  | nil => intro w h _; exact h
  | cons e es ih => intro w h hh; exact ih (step2 w e) (step2_inv w e h hh.1) hh.2

theorem init_inv2 (business : String) (lenA lenB : Nat) (loggerSet : Bool) (db : DB) :
    Inv2W (World2.init business lenA lenB loggerSet db) := by
  have hm : ∀ len, MonoInv (Proc.init business len loggerSet)
      (findRow db.rows business) := by
    intro len
    refine ⟨by simp [SegOK, Proc.init, New, MIN64, MAX64], List.Pairwise.nil, fun _ => rfl, ?_⟩
    intro h; simp [Proc.init] at h
  refine ⟨rfl, hm lenA, hm lenB, ?_, ?_, ?_, ?_⟩
  · intro x hx; simp [World2.init, Proc.init] at hx
  · intro h; simp [World2.init, Proc.init] at h
  · intro h; simp [World2.init, Proc.init] at h
  · intro h; simp [World2.init, Proc.init] at h

/-- C3, amended: two allocators of one key on one record, in every interleaving of the
events of their goroutines and `Get` calls in which each reservation is one atomic event
and reads a record with `step > 0` and `max + step` within int64: no value sent by one
is ever sent by the other. -/
theorem disjoint_ids (business : String) (lenA lenB : Nat) (loggerSet : Bool) (db : DB)
    (evs : List Ev2)
    (hreads : Holds2 (Reads2 Fits) (World2.init business lenA lenB loggerSet db) evs) :
    ∀ x ∈ (run2 (World2.init business lenA lenB loggerSet db) evs).a.sent,
      x ∉ (run2 (World2.init business lenA lenB loggerSet db) evs).b.sent :=
  (run2_inv evs _ (init_inv2 business lenA lenB loggerSet db) hreads).2.2.2.1

theorem disjoint_ids_witness :
    Holds2 (Reads2 Fits)
      (World2.init "b1" 1 1 false { rows := [("b1", { max := 0, step := 2 })], faults := [] })
      [Ev2.produceA, Ev2.produceB, Ev2.produceA, Ev2.produceB, Ev2.getB, Ev2.produceA,
        Ev2.getA, Ev2.produceA, Ev2.produceA, Ev2.getA, Ev2.produceA, Ev2.produceA,
        Ev2.produceA, Ev2.produceB, Ev2.produceB] ∧
    (run2 (World2.init "b1" 1 1 false { rows := [("b1", { max := 0, step := 2 })], faults := [] })
      [Ev2.produceA, Ev2.produceB, Ev2.produceA, Ev2.produceB, Ev2.getB, Ev2.produceA,
        Ev2.getA, Ev2.produceA, Ev2.produceA, Ev2.getA, Ev2.produceA, Ev2.produceA,
        Ev2.produceA, Ev2.produceB, Ev2.produceB]).a.sent = [1, 2, 5] ∧
    (run2 (World2.init "b1" 1 1 false { rows := [("b1", { max := 0, step := 2 })], faults := [] })
      [Ev2.produceA, Ev2.produceB, Ev2.produceA, Ev2.produceB, Ev2.getB, Ev2.produceA,
        Ev2.getA, Ev2.produceA, Ev2.produceA, Ev2.getA, Ev2.produceA, Ev2.produceA,
        Ev2.produceA, Ev2.produceB, Ev2.produceB]).b.sent = [3, 4] ∧
    ∀ x ∈ (run2 (World2.init "b1" 1 1 false
        { rows := [("b1", { max := 0, step := 2 })], faults := [] })
      [Ev2.produceA, Ev2.produceB, Ev2.produceA, Ev2.produceB, Ev2.getB, Ev2.produceA,
        Ev2.getA, Ev2.produceA, Ev2.produceA, Ev2.getA, Ev2.produceA, Ev2.produceA,
        Ev2.produceA, Ev2.produceB, Ev2.produceB]).a.sent,
      x ∉ (run2 (World2.init "b1" 1 1 false
        { rows := [("b1", { max := 0, step := 2 })], faults := [] })
      [Ev2.produceA, Ev2.produceB, Ev2.produceA, Ev2.produceB, Ev2.getB, Ev2.produceA,
        Ev2.getA, Ev2.produceA, Ev2.produceA, Ev2.getA, Ev2.produceA, Ev2.produceA,
        Ev2.produceA, Ev2.produceB, Ev2.produceB]).b.sent :=
  ⟨by decide, by decide, by decide, disjoint_ids "b1" 1 1 false _ _ (by decide)⟩

/-- C3 as stated fails: on the record `(max = 0, step = 2^63 - 1)` the first allocator
reserves `(0, 2^63 - 1]` and sends 1; the reservation of the second wraps around
(`max = -2`), its next one starts at `-2`, and it sends `-1, 0, 1`.  Every reservation
is one atomic event and reads a positive step. -/
theorem disjoint_ids_fails :
    Holds2 (Reads2 StepPos)
      (World2.init "b1" 4 4 false
        { rows := [("b1", { max := 0, step := 9223372036854775807 })], faults := [] })
      [Ev2.produceA, Ev2.produceA, Ev2.produceA, Ev2.produceB, Ev2.produceB, Ev2.produceB,
        Ev2.produceB, Ev2.produceB, Ev2.produceB, Ev2.produceB] ∧
    (run2 (World2.init "b1" 4 4 false
        { rows := [("b1", { max := 0, step := 9223372036854775807 })], faults := [] })
      [Ev2.produceA, Ev2.produceA, Ev2.produceA, Ev2.produceB, Ev2.produceB, Ev2.produceB,
        Ev2.produceB, Ev2.produceB, Ev2.produceB, Ev2.produceB]).a.sent = [1] ∧
    (run2 (World2.init "b1" 4 4 false
        { rows := [("b1", { max := 0, step := 9223372036854775807 })], faults := [] })
      [Ev2.produceA, Ev2.produceA, Ev2.produceA, Ev2.produceB, Ev2.produceB, Ev2.produceB,
        Ev2.produceB, Ev2.produceB, Ev2.produceB, Ev2.produceB]).b.sent = [-1, 0, 1] ∧
    ¬ (∀ x ∈ (run2 (World2.init "b1" 4 4 false
        { rows := [("b1", { max := 0, step := 9223372036854775807 })], faults := [] })
      [Ev2.produceA, Ev2.produceA, Ev2.produceA, Ev2.produceB, Ev2.produceB, Ev2.produceB,
        Ev2.produceB, Ev2.produceB, Ev2.produceB, Ev2.produceB]).a.sent,
      x ∉ (run2 (World2.init "b1" 4 4 false
        { rows := [("b1", { max := 0, step := 9223372036854775807 })], faults := [] })
      [Ev2.produceA, Ev2.produceA, Ev2.produceA, Ev2.produceB, Ev2.produceB, Ev2.produceB,
        Ev2.produceB, Ev2.produceB, Ev2.produceB, Ev2.produceB]).b.sent) := by
  decide

/-! ### getFromDB, reLoad, Get, one iteration (C6, C7, C4, C10) -/

/-- C6, amended: with the record `(max = p, step = s)` for the key, `p`, `s` and `p + s`
all within int64, `getFromDB` succeeds exactly when its transaction meets no fault, and
a successful call sets `min = p` and `max = p + s`, leaves the record as `(p + s, s)`,
returns no error, and keeps the channel, its capacity and the key. -/
theorem getFromDB_success (u : UID) (db : DB) (p s : Int)
    (hrow : findRow db.rows u.business = some { max := p, step := s })
    (h64 : (MIN64 ≤ p ∧ p ≤ MAX64) ∧ (MIN64 ≤ s ∧ s ≤ MAX64) ∧
      (MIN64 ≤ p + s ∧ p + s ≤ MAX64)) :
    ((getFromDB u db).err = none ↔ nextFault db.faults = Fault.ok) ∧
    ((getFromDB u db).err = none →
      (getFromDB u db).u.min = p ∧
      (getFromDB u db).u.max = p + s ∧
      findRow (getFromDB u db).db.rows u.business = some { max := p + s, step := s } ∧
      (getFromDB u db).u.ch = u.ch ∧
      (getFromDB u db).u.cap = u.cap ∧
      (getFromDB u db).u.business = u.business) := by
  have hw : wrap64 (p + s) = p + s := wrap64_id _ h64.2.2.1 h64.2.2.2
  by_cases hf : nextFault db.faults = Fault.ok
  · have h := getFromDB_ok u db _ hrow hf
    rw [hw] at h
    rw [h]
    refine ⟨by simp [hf], fun _ => ⟨rfl, rfl, ?_, rfl, rfl, rfl⟩⟩
    simp [findRow_setMax, hrow]
  · have h := getFromDB_fault u db _ hrow hf
    rw [h]
    have hne : faultErr (nextFault db.faults) ≠ none := fun hq => hf ((faultErr_eq_none _).1 hq)
    constructor
    · constructor
      · intro h0; exact absurd h0 hne
      · intro h0; exact absurd h0 hf
    · intro h0; exact absurd h0 hne

theorem getFromDB_success_witness :
    (findRow [("b1", { max := 0, step := 100 })] "b1" = some { max := 0, step := 100 } ∧
      ((MIN64 ≤ (0 : Int) ∧ (0 : Int) ≤ MAX64) ∧ (MIN64 ≤ (100 : Int) ∧ (100 : Int) ≤ MAX64) ∧
        (MIN64 ≤ (0 : Int) + 100 ∧ (0 : Int) + 100 ≤ MAX64))) ∧
    (getFromDB (New "b1" 4) { rows := [("b1", { max := 0, step := 100 })], faults := [] }).err
      = none ∧
    (getFromDB (New "b1" 4) { rows := [("b1", { max := 0, step := 100 })], faults := [] }).u.min
      = 0 ∧
    (getFromDB (New "b1" 4) { rows := [("b1", { max := 0, step := 100 })], faults := [] }).u.max
      = 0 + 100 ∧
    findRow (getFromDB (New "b1" 4)
        { rows := [("b1", { max := 0, step := 100 })], faults := [] }).db.rows "b1"
      = some { max := 0 + 100, step := 100 } :=
  ⟨⟨by decide, by decide⟩,
   (getFromDB_success (New "b1" 4) { rows := [("b1", { max := 0, step := 100 })], faults := [] }
      0 100 (by decide) (by decide)).1.2 rfl,
   ((getFromDB_success (New "b1" 4) { rows := [("b1", { max := 0, step := 100 })], faults := [] }
      0 100 (by decide) (by decide)).2 (by decide)).1,
   ((getFromDB_success (New "b1" 4) { rows := [("b1", { max := 0, step := 100 })], faults := [] }
      0 100 (by decide) (by decide)).2 (by decide)).2.1,
   ((getFromDB_success (New "b1" 4) { rows := [("b1", { max := 0, step := 100 })], faults := [] }
      0 100 (by decide) (by decide)).2 (by decide)).2.2.1⟩

/-- C6 as stated fails: on the record `(max = 2^63 - 1, step = 1)` the call succeeds and
leaves `max = -2^63` in the segment and in the record, not `p + s = 2^63`. -/
theorem getFromDB_success_fails :
    (getFromDB (New "b1" 4)
      { rows := [("b1", { max := 9223372036854775807, step := 1 })], faults := [] }).err = none ∧
    (getFromDB (New "b1" 4)
      { rows := [("b1", { max := 9223372036854775807, step := 1 })], faults := [] }).u.min
      = 9223372036854775807 ∧
    (getFromDB (New "b1" 4)
      { rows := [("b1", { max := 9223372036854775807, step := 1 })], faults := [] }).u.max
      = -9223372036854775808 ∧
    ¬ ((getFromDB (New "b1" 4)
      { rows := [("b1", { max := 9223372036854775807, step := 1 })], faults := [] }).u.max
      = 9223372036854775807 + 1) ∧
    findRow (getFromDB (New "b1" 4)
      { rows := [("b1", { max := 9223372036854775807, step := 1 })], faults := [] }).db.rows "b1"
      = some { max := -9223372036854775808, step := 1 } ∧
    ¬ (findRow (getFromDB (New "b1" 4)
      { rows := [("b1", { max := 9223372036854775807, step := 1 })], faults := [] }).db.rows "b1"
      = some { max := 9223372036854775807 + 1, step := 1 }) := by
  decide

/-- C7: when the store fails the first `N` transactions of a reload (errors `errs`, one
per failed attempt) and lets the next one through, `reLoad` returns at attempt `N + 1`
and not before, with a nil error, after `N` reports, the report of a failed attempt
carrying the error of that attempt, to `Logger.Error` when `Logger` is set and to
`log.Println` otherwise, the segment being the one of the successful attempt; and
whatever the store does, an error returned by `reLoad` is nil. -/
theorem reLoad_retry (loggerSet : Bool) (u : UID) (row : Row) (rows : List (String × Row))
    (fs rest : List Fault) (errs : List Err)
    (hrow : findRow rows u.business = some row)
    (hfs : fs.map faultErr = errs.map some)
    (hrest : nextFault rest = Fault.ok) :
    (∀ fuel, errs.length < fuel →
      reLoad loggerSet fuel u { rows := rows, faults := fs ++ rest } =
        some { err := none,
               u := { u with min := row.max, max := wrap64 (row.max + row.step) },
               db := { rows := setMax rows u.business (wrap64 (row.max + row.step)),
                       faults := rest.tail },
               reports := errs.map
                 (fun e => if loggerSet = true then Report.logger e else Report.stdlog e),
               attempts := errs.length + 1 }) ∧
    (∀ fuel r, reLoad loggerSet fuel u { rows := rows, faults := fs ++ rest } = some r →
      r.reports.length = errs.length ∧ r.attempts = errs.length + 1 ∧
      (loggerSet = true → r.reports = errs.map Report.logger) ∧
      (loggerSet = false → r.reports = errs.map Report.stdlog)) ∧
    (∀ fuel, fuel ≤ errs.length →
      reLoad loggerSet fuel u { rows := rows, faults := fs ++ rest } = none) ∧
    (∀ (fuel : Nat) (u2 : UID) (db2 : DB) (r : ReloadResult),
      reLoad loggerSet fuel u2 db2 = some r → r.err = none) := by
  have hlen : fs.length = errs.length := by
    have := congrArg List.length hfs
    simpa using this
  have hrep : report loggerSet =
      fun e => if loggerSet = true then Report.logger e else Report.stdlog e := by
    funext e; rfl
  have hmain : ∀ fuel, errs.length < fuel →
      reLoad loggerSet fuel u { rows := rows, faults := fs ++ rest } =
        some { err := none,
               u := { u with min := row.max, max := wrap64 (row.max + row.step) },
               db := { rows := setMax rows u.business (wrap64 (row.max + row.step)),
                       faults := rest.tail },
               reports := errs.map
                 (fun e => if loggerSet = true then Report.logger e else Report.stdlog e),
               attempts := errs.length + 1 } := by
    intro fuel hfuel
    have h := reLoad_script loggerSet u row rows hrow rest hrest fs errs fuel hfs (by omega)
    rw [h, hlen, hrep]
  have hshort : ∀ fuel, fuel ≤ errs.length →
      reLoad loggerSet fuel u { rows := rows, faults := fs ++ rest } = none := by
    intro fuel hfuel
    apply reLoad_short loggerSet u row rows hrow rest fs fuel
    · intro f hf hq
      have hmem : faultErr f ∈ fs.map faultErr := List.mem_map_of_mem _ hf
      rw [hfs, hq] at hmem
      simp [faultErr] at hmem
    · omega
  refine ⟨hmain, ?_, hshort, reLoad_err loggerSet⟩
  intro fuel r hr
  by_cases hfuel : errs.length < fuel
  · rw [hmain fuel hfuel] at hr
    simp only [Option.some.injEq] at hr
    subst hr
    refine ⟨by simp, rfl, ?_, ?_⟩
    · intro hl; simp [hl]
    · intro hl; simp [hl]
  · rw [hshort fuel (by omega)] at hr
    simp at hr

theorem reLoad_retry_witness :
    (findRow [("b1", { max := 0, step := 100 })] "b1" = some { max := 0, step := 100 } ∧
      [Fault.beginErr (Err.driver 7), Fault.commitErr (Err.driver 8)].map faultErr
        = [Err.driver 7, Err.driver 8].map some) ∧
    reLoad false 3 (New "b1" 4)
        { rows := [("b1", { max := 0, step := 100 })],
          faults := [Fault.beginErr (Err.driver 7), Fault.commitErr (Err.driver 8)] ++ [] } =
      some { err := none,
             u := { business := "b1", ch := [], cap := 4, min := 0, max := 100 },
             db := { rows := [("b1", { max := 100, step := 100 })], faults := [] },
             reports := [Report.stdlog (Err.driver 7), Report.stdlog (Err.driver 8)],
             attempts := 3 } ∧
    reLoad false 2 (New "b1" 4)
        { rows := [("b1", { max := 0, step := 100 })],
          faults := [Fault.beginErr (Err.driver 7), Fault.commitErr (Err.driver 8)] ++ [] } = none :=
  ⟨⟨by decide, by decide⟩,
   (reLoad_retry false (New "b1" 4) { max := 0, step := 100 } [("b1", { max := 0, step := 100 })]
      [Fault.beginErr (Err.driver 7), Fault.commitErr (Err.driver 8)] []
      [Err.driver 7, Err.driver 8] (by decide) (by decide) (by decide)).1 3 (by decide),
   (reLoad_retry false (New "b1" 4) { max := 0, step := 100 } [("b1", { max := 0, step := 100 })]
      [Fault.beginErr (Err.driver 7), Fault.commitErr (Err.driver 8)] []
      [Err.driver 7, Err.driver 8] (by decide) (by decide) (by decide)).2.2.1 2 (by decide)⟩

/-- C4: `Get` fails with `ErrTimeOut` exactly when the buffer is empty and nothing is
sent during the wait; a failing call returns identifier 0 and leaves the allocator
(buffer, `min`, `max`) as it was, the database is not touched by a `Get`, and
`ErrTimeOut` is the only error `Get` returns. -/
theorem Get_timeout (u : UID) (arrival : Option Int) (a : Proc) (db : DB) :
    ((Get u arrival).err = some Err.ErrTimeOut ↔ (u.ch = [] ∧ arrival = none)) ∧
    ((Get u arrival).err ≠ none → (Get u arrival).id = 0 ∧ (Get u arrival).u = u) ∧
    ((Get u arrival).err = none ∨ (Get u arrival).err = some Err.ErrTimeOut) ∧
    (step (a, db) Ev.get).2 = db ∧
    ((Get a.u (if a.pc = PC.send then some a.u.min else none)).err ≠ none →
      (step (a, db) Ev.get).1 = a) := by
  refine ⟨?_, ?_, ?_, rfl, ?_⟩
  · unfold Get
    cases hc : u.ch <;> cases arrival <;> simp
  · unfold Get
    cases hc : u.ch <;> cases arrival <;> simp
  · unfold Get
    cases hc : u.ch <;> cases arrival <;> simp
  · intro h
    simp only [step, getStep]
    split
    · rfl
    · rename_i h2; exact absurd h2 h

/-- C10, amended: one iteration of the refill loop, the store holding
`(max = p, step = s)` with `s > 0` and letting the transaction through.  Started with
`min >= max` and `p < 2^63 - 1` it makes exactly one reservation, the call of
`getFromDB`, issues no report and sends `p + 1`; that value is above the end of the
used-up segment and above every value taken from it whenever the record has not fallen
behind the allocator (`min ≤ p`), and it lies in the new segment `(p, p + s]` when
`p + s` fits in an int64.  Started with `min < max` it makes no reservation, leaves the
database as it is, and sends the old `min + 1`, `max` unchanged. -/
theorem produceNext_iteration (loggerSet : Bool) (fuel : Nat) (u : UID) (db : DB) (p s : Int)
    (hrow : findRow db.rows u.business = some { max := p, step := s })
    (hok : nextFault db.faults = Fault.ok) (hs : 0 < s)
    (hp : MIN64 ≤ p ∧ p ≤ MAX64) (hmin : MIN64 ≤ u.min) (hmax : u.max ≤ MAX64) :
    (u.max ≤ u.min → p < MAX64 →
      (getFromDB u db).err = none ∧
      (getFromDB u db).u.min = p ∧
      produceNext loggerSet (fuel + 1) u db =
        some { err := none, u := { (getFromDB u db).u with min := p + 1 },
               db := (getFromDB u db).db, reports := [], attempts := 1 } ∧
      (produceSend { (getFromDB u db).u with min := p + 1 }).ch = u.ch ++ [p + 1] ∧
      (u.min ≤ p → u.max < p + 1 ∧ ∀ x, x ≤ u.min → x ≠ p + 1) ∧
      (p + s ≤ MAX64 →
        (getFromDB u db).u.max = p + s ∧
        findRow (getFromDB u db).db.rows u.business = some { max := p + s, step := s } ∧
        p < p + 1 ∧ p + 1 ≤ p + s)) ∧
    (u.min < u.max →
      produceNext loggerSet (fuel + 1) u db =
        some { err := none, u := { u with min := u.min + 1 }, db := db,
               reports := [], attempts := 0 } ∧
      (produceSend { u with min := u.min + 1 }).ch = u.ch ++ [u.min + 1]) := by
  constructor
  · intro hge hlt
    have hw1 : wrap64 (p + 1) = p + 1 := wrap64_id _ (by omega) (by omega)
    have hg := getFromDB_ok u db _ hrow hok
    have h : reLoad loggerSet (fuel + 1) u db = _ :=
      reLoad_script loggerSet u _ db.rows hrow db.faults hok [] [] (fuel + 1) rfl (by simp)
    have hge2 : u.min ≥ u.max := hge
    have hpn : produceNext loggerSet (fuel + 1) u db =
        some { err := none, u := { (getFromDB u db).u with min := p + 1 },
               db := (getFromDB u db).db, reports := [], attempts := 1 } := by
      simp only [produceNext, hge2, if_true, h, hw1, hg]
      rfl
    refine ⟨by rw [hg], by rw [hg], hpn, by rw [hg]; rfl, ?_, ?_⟩
    · intro hb
      exact ⟨by omega, fun x hx => by omega⟩
    · intro hfit
      have hw : wrap64 (p + s) = p + s := wrap64_id _ (by omega) hfit
      rw [hg]
      simp only [hw]
      refine ⟨trivial, ?_, by omega, by omega⟩
      simp [findRow_setMax, hrow]
  · intro hlt
    have hnot : ¬ (u.min ≥ u.max) := by omega
    have h1 : wrap64 (u.min + 1) = u.min + 1 := wrap64_id _ (by omega) (by omega)
    have hpn : produceNext loggerSet (fuel + 1) u db =
        some { err := none, u := { u with min := u.min + 1 }, db := db,
               reports := [], attempts := 0 } := by
      simp only [produceNext, hnot, if_false, h1]
    exact ⟨hpn, rfl⟩

theorem produceNext_iteration_witness :
    ((100 : Int) ≤ 100 ∧ (100 : Int) < MAX64 ∧ (100 : Int) ≤ 100 ∧ (100 : Int) + 100 ≤ MAX64 ∧
      (150 : Int) < 200) ∧
    (produceNext false (0 + 1) { business := "b1", ch := [99, 100], cap := 4, min := 100, max := 100 }
        { rows := [("b1", { max := 100, step := 100 })], faults := [] } =
      some { err := none,
             u := { business := "b1", ch := [99, 100], cap := 4, min := 101, max := 200 },
             db := { rows := [("b1", { max := 200, step := 100 })], faults := [] },
             reports := [], attempts := 1 } ∧
     (produceSend { business := "b1", ch := [99, 100], cap := 4, min := 101, max := 200 }).ch
       = [99, 100, 101] ∧
     ((100 : Int) < 100 + 1 ∧ ∀ x : Int, x ≤ 100 → x ≠ 100 + 1)) ∧
    (produceNext false (0 + 1) { business := "b1", ch := [150], cap := 4, min := 150, max := 200 }
        { rows := [("b1", { max := 200, step := 100 })], faults := [] } =
      some { err := none,
             u := { business := "b1", ch := [150], cap := 4, min := 151, max := 200 },
             db := { rows := [("b1", { max := 200, step := 100 })], faults := [] },
             reports := [], attempts := 0 } ∧
     (produceSend { business := "b1", ch := [150], cap := 4, min := 151, max := 200 }).ch
       = [150, 151]) :=
  ⟨by decide,
   ⟨((produceNext_iteration false 0
        { business := "b1", ch := [99, 100], cap := 4, min := 100, max := 100 }
        { rows := [("b1", { max := 100, step := 100 })], faults := [] } 100 100
        (by decide) (by decide) (by decide) (by decide) (by decide) (by decide)).1
        (by decide) (by decide)).2.2.1,
    ((produceNext_iteration false 0
        { business := "b1", ch := [99, 100], cap := 4, min := 100, max := 100 }
        { rows := [("b1", { max := 100, step := 100 })], faults := [] } 100 100
        (by decide) (by decide) (by decide) (by decide) (by decide) (by decide)).1
        (by decide) (by decide)).2.2.2.1,
    ((produceNext_iteration false 0
        { business := "b1", ch := [99, 100], cap := 4, min := 100, max := 100 }
        { rows := [("b1", { max := 100, step := 100 })], faults := [] } 100 100
        (by decide) (by decide) (by decide) (by decide) (by decide) (by decide)).1
        (by decide) (by decide)).2.2.2.2.1 (by decide)⟩,
   (produceNext_iteration false 0
      { business := "b1", ch := [150], cap := 4, min := 150, max := 200 }
      { rows := [("b1", { max := 200, step := 100 })], faults := [] } 200 100
      (by decide) (by decide) (by decide) (by decide) (by decide) (by decide)).2 (by decide)⟩

/-- C10 as stated fails.  From the record `(2^63 - 2, 1)` the run reaches the head of the
loop with `min = max = 2^63 - 1` and the record `(2^63 - 1, 1)`; the iteration reserves
and sends `-2^63`, not `p + 1 = 2^63`.  From the record `(0, 2)`, set back to `(0, 2)` by
another client once 1 and 2 are sent, the iteration on the used-up segment reserves and
sends 1 again, a value taken from that segment. -/
theorem produceNext_iteration_fails :
    ((run (Proc.init "b1" 4 false,
          { rows := [("b1", { max := 9223372036854775806, step := 1 })], faults := [] })
        [Ev.produce, Ev.produce, Ev.produce]).1.pc = PC.loop ∧
     (run (Proc.init "b1" 4 false,
          { rows := [("b1", { max := 9223372036854775806, step := 1 })], faults := [] })
        [Ev.produce, Ev.produce, Ev.produce]).1.u.min = 9223372036854775807 ∧
     (run (Proc.init "b1" 4 false,
          { rows := [("b1", { max := 9223372036854775806, step := 1 })], faults := [] })
        [Ev.produce, Ev.produce, Ev.produce]).1.u.max = 9223372036854775807 ∧
     (run (Proc.init "b1" 4 false,
          { rows := [("b1", { max := 9223372036854775806, step := 1 })], faults := [] })
        [Ev.produce, Ev.produce, Ev.produce]).2 =
       { rows := [("b1", { max := 9223372036854775807, step := 1 })], faults := [] } ∧
     (produceNext false 1
        (run (Proc.init "b1" 4 false,
          { rows := [("b1", { max := 9223372036854775806, step := 1 })], faults := [] })
          [Ev.produce, Ev.produce, Ev.produce]).1.u
        (run (Proc.init "b1" 4 false,
          { rows := [("b1", { max := 9223372036854775806, step := 1 })], faults := [] })
          [Ev.produce, Ev.produce, Ev.produce]).2).map (fun r => (r.attempts, r.u.min))
       = some (1, -9223372036854775808) ∧
     ¬ ((-9223372036854775808 : Int) = 9223372036854775807 + 1)) ∧
    ((run (Proc.init "b1" 4 false, { rows := [("b1", { max := 0, step := 2 })], faults := [] })
        [Ev.produce, Ev.produce, Ev.produce, Ev.produce, Ev.produce,
          Ev.store { max := 0, step := 2 }]).1.pc = PC.loop ∧
     (run (Proc.init "b1" 4 false, { rows := [("b1", { max := 0, step := 2 })], faults := [] })
        [Ev.produce, Ev.produce, Ev.produce, Ev.produce, Ev.produce,
          Ev.store { max := 0, step := 2 }]).1.u.min = 2 ∧
     (run (Proc.init "b1" 4 false, { rows := [("b1", { max := 0, step := 2 })], faults := [] })
        [Ev.produce, Ev.produce, Ev.produce, Ev.produce, Ev.produce,
          Ev.store { max := 0, step := 2 }]).1.u.max = 2 ∧
     (run (Proc.init "b1" 4 false, { rows := [("b1", { max := 0, step := 2 })], faults := [] })
        [Ev.produce, Ev.produce, Ev.produce, Ev.produce, Ev.produce,
          Ev.store { max := 0, step := 2 }]).1.sent = [1, 2] ∧
     (produceNext false 1
        (run (Proc.init "b1" 4 false, { rows := [("b1", { max := 0, step := 2 })], faults := [] })
          [Ev.produce, Ev.produce, Ev.produce, Ev.produce, Ev.produce,
            Ev.store { max := 0, step := 2 }]).1.u
        (run (Proc.init "b1" 4 false, { rows := [("b1", { max := 0, step := 2 })], faults := [] })
          [Ev.produce, Ev.produce, Ev.produce, Ev.produce, Ev.produce,
            Ev.store { max := 0, step := 2 }]).2).map (fun r => (r.attempts, r.u.min))
       = some (1, 1) ∧
     (run (Proc.init "b1" 4 false, { rows := [("b1", { max := 0, step := 2 })], faults := [] })
        [Ev.produce, Ev.produce, Ev.produce, Ev.produce, Ev.produce,
          Ev.store { max := 0, step := 2 }, Ev.produce, Ev.produce]).1.sent = [1, 2, 1]) := by
  decide

/-! ### Delivery in order (C5) -/

/-- C5: after every run of an allocator (its goroutine moving, `Get` calls completing,
the record changed by others, in any order) the values returned by successful `Get`
calls followed by the buffer, oldest first, are the values sent so far in order; a
`Get` on a non-empty buffer returns the oldest value and removes that entry only. -/
theorem get_fifo (business : String) (len : Nat) (loggerSet : Bool) (db : DB) (evs : List Ev)
    (u : UID) (x : Int) (rest : List Int) (arrival : Option Int) :
    (run (Proc.init business len loggerSet, db) evs).1.got ++
        (run (Proc.init business len loggerSet, db) evs).1.u.ch =
      (run (Proc.init business len loggerSet, db) evs).1.sent ∧
    (u.ch = x :: rest →
      Get u arrival = { id := x, err := none, u := { u with ch := rest } }) := by
  constructor
  · exact run_induction (fun w => w.1.got ++ w.1.u.ch = w.1.sent) step_fifo evs _ rfl
  · intro h
    simp [Get, h]

end Autoinc
